import Mathlib

/-!
Shallow embedding of the rust-analyzer project-generation core of this
repository (src/tools/rust_analyzer/aquery.rs and
src/tools/rust_analyzer/rust_project.rs), together with theorems settling
the specification claims about it.

Modelling conventions:
* Rust `BTreeMap` values are modelled as association lists whose keys are
  kept sorted by an executable strict comparison (`strlt` for `String`
  keys, `Nat.blt` for numeric ids); `BTreeSet<String>` is a sorted
  duplicate-free `List String`.  Insertion keeps the sorted order, exactly
  as the B-tree does, so `into_values()` iteration order is the key order.
* `anyhow::Result` is `Except String`; `expect`/panics on paths that the
  surrounding code guards as unreachable are modelled by returning an
  inert default value, with a comment at each site.
* Filesystem paths are lists of components; `Utf8PathBuf::join` appends.
  Filesystem existence checks take the file system as an explicit
  predicate argument.
* The unbounded recursions of `path_from_fragments` and `detect_cycle`
  take an explicit fuel argument; exhausted fuel models divergence and the
  theorems show the fuel needed is bounded on the inputs in question.
-/

/-- Strict lexicographic comparison of character lists, the order
underlying Rust's `Ord for String`. -/
def strltL : List Char → List Char → Bool
  | [], [] => false
  | [], _ :: _ => true
  | _ :: _, [] => false
  | a :: as, b :: bs => if a < b then true else if b < a then false else strltL as bs

/-- Strict comparison of strings, the order of `BTreeMap<String, _>` keys. -/
def strlt (a b : String) : Bool := strltL a.data b.data

/-- The properties of a strict total order that the sorted-container
lemmas need, packaged for an executable comparison function. -/
structure StrictCmp {κ : Type} (klt : κ → κ → Bool) : Prop where
  tri : ∀ a b, klt a b = true ∨ a = b ∨ klt b a = true
  asym : ∀ a b, klt a b = true → klt b a = false
  trans : ∀ a b c, klt a b = true → klt b c = true → klt a c = true

theorem StrictCmp.irrefl {κ : Type} {klt : κ → κ → Bool} (H : StrictCmp klt)
    (a : κ) : klt a a = false := by
  cases h : klt a a
  · rfl
  · have := H.asym a a h
    simp [h] at this

theorem strltL_strictCmp : StrictCmp strltL := by
  constructor
  · intro a
    induction a with
    | nil => intro b; cases b <;> simp [strltL]
    | cons x xs ih =>
      intro b
      cases b with
      | nil => simp [strltL]
      | cons y ys =>
        rcases lt_trichotomy x y with h | h | h
        · left; simp [strltL, h]
        · subst h
          rcases ih ys with h2 | h2 | h2
          · left; simp [strltL, lt_irrefl, h2]
          · right; left; simp [h2]
          · right; right; simp [strltL, lt_irrefl, h2]
        · right; right; simp [strltL, h, lt_asymm h]
  · intro a
    induction a with
    | nil => intro b h; cases b <;> simp_all [strltL]
    | cons x xs ih =>
      intro b h
      cases b with
      | nil => simp [strltL] at h
      | cons y ys =>
        simp only [strltL] at h ⊢
        by_cases hxy : x < y
        · simp [hxy, lt_asymm hxy, lt_irrefl]
        · by_cases hyx : y < x
          · rw [if_neg hxy, if_pos hyx] at h
            exact Bool.noConfusion h
          · rw [if_neg hxy, if_neg hyx] at h
            rw [if_neg hyx, if_neg hxy]
            exact ih ys h
  · intro a
    induction a with
    | nil =>
      intro b c h1 h2
      cases b with
      | nil => simp [strltL] at h1
      | cons y ys => cases c with
        | nil => simp [strltL] at h2
        | cons z zs => simp [strltL]
    | cons x xs ih =>
      intro b c h1 h2
      cases b with
      | nil => simp [strltL] at h1
      | cons y ys =>
        cases c with
        | nil => simp [strltL] at h2
        | cons z zs =>
          simp only [strltL] at h1 h2 ⊢
          by_cases hxy : x < y
          · by_cases hyz : y < z
            · simp [lt_trans hxy hyz]
            · by_cases hzy : z < y
              · simp [hyz, hzy] at h2
              · have hyz' : y = z := le_antisymm (le_of_not_lt hzy) (le_of_not_lt hyz)
                subst hyz'
                simp [hxy]
          · by_cases hyx : y < x
            · simp [hxy, hyx] at h1
            · have hxy' : x = y := le_antisymm (le_of_not_lt hyx) (le_of_not_lt hxy)
              subst hxy'
              simp only [if_neg hxy, lt_irrefl, if_neg (lt_irrefl x)] at h1
              by_cases hyz : x < z
              · simp [hyz]
              · by_cases hzy : z < x
                · simp [hyz, hzy] at h2
                · have : x = z := le_antisymm (le_of_not_lt hzy) (le_of_not_lt hyz)
                  subst this
                  simp only [lt_irrefl, if_neg (lt_irrefl x)] at h2 ⊢
                  exact ih ys zs h1 h2

theorem strlt_strictCmp : StrictCmp strlt := by
  constructor
  · intro a b
    rcases strltL_strictCmp.tri a.data b.data with h | h | h
    · exact Or.inl h
    · exact Or.inr (Or.inl (congrArg String.mk h))
    · exact Or.inr (Or.inr h)
  · intro a b h; exact strltL_strictCmp.asym _ _ h
  · intro a b c h1 h2; exact strltL_strictCmp.trans _ _ _ h1 h2

theorem natblt_strictCmp : StrictCmp Nat.blt := by
  constructor
  · intro a b
    rcases Nat.lt_trichotomy a b with h | h | h
    · left; exact Nat.blt_eq.mpr h
    · right; left; exact h
    · right; right; exact Nat.blt_eq.mpr h
  · intro a b h
    cases hba : Nat.blt b a
    · rfl
    · exact absurd (Nat.blt_eq.mp hba) (Nat.lt_asymm (Nat.blt_eq.mp h))
  · intro a b c h1 h2
    exact Nat.blt_eq.mpr (Nat.lt_trans (Nat.blt_eq.mp h1) (Nat.blt_eq.mp h2))

/-- `BTreeMap` insertion: place the binding at its sorted position,
replacing an existing binding with the same key. -/
def mapInsert {κ ν : Type} [DecidableEq κ] (klt : κ → κ → Bool) (k : κ) (v : ν) :
    List (κ × ν) → List (κ × ν)
  | [] => [(k, v)]
  | (k', v') :: rest =>
    if klt k k' then (k, v) :: (k', v') :: rest
    else if k = k' then (k, v) :: rest
    else (k', v') :: mapInsert klt k v rest

/-- `BTreeMap` lookup: the value bound to the first occurrence of the key. -/
def mapLookup {κ ν : Type} [DecidableEq κ] (k : κ) : List (κ × ν) → Option ν
  | [] => none
  | (k', v') :: rest => if k = k' then some v' else mapLookup k rest

/-- `BTreeMap::contains_key`. -/
def mapContains {κ ν : Type} [DecidableEq κ] (k : κ) (m : List (κ × ν)) : Bool :=
  (mapLookup k m).isSome

/-- `BTreeSet<String>` insertion, keeping the list sorted and duplicate-free. -/
def setInsert (x : String) : List String → List String
  | [] => [x]
  | y :: ys => if strlt x y then x :: y :: ys else if x = y then y :: ys else y :: setInsert x ys

/-- `BTreeSet::extend`: insert every element of `b` into `a` in order. -/
def setUnion (a b : List String) : List String :=
  b.foldl (fun acc x => setInsert x acc) a

/-- A `List String` represents a `BTreeSet<String>` when sorted strictly. -/
def SortedStr (l : List String) : Prop :=
  l.Pairwise (fun a b => strlt a b = true)

theorem mapLookup_mapInsert_self {κ ν : Type} [DecidableEq κ] (klt : κ → κ → Bool)
    (k : κ) (v : ν) (m : List (κ × ν)) : mapLookup k (mapInsert klt k v m) = some v := by
  induction m with
  | nil => simp [mapInsert, mapLookup]
  | cons kv rest ih =>
    obtain ⟨k', v'⟩ := kv
    by_cases h1 : klt k k' = true
    · simp [mapInsert, h1, mapLookup]
    · by_cases h2 : k = k'
      · subst h2
        simp [mapInsert, h1, mapLookup]
      · simp [mapInsert, h1, h2, mapLookup, ih]

theorem mapLookup_mapInsert_ne {κ ν : Type} [DecidableEq κ] (klt : κ → κ → Bool)
    {k k₁ : κ} (v : ν) (m : List (κ × ν)) (hne : k ≠ k₁) :
    mapLookup k (mapInsert klt k₁ v m) = mapLookup k m := by
  induction m with
  | nil => simp [mapInsert, mapLookup, hne]
  | cons kv rest ih =>
    obtain ⟨k', v'⟩ := kv
    by_cases h1 : klt k₁ k' = true
    · simp [mapInsert, h1, mapLookup, hne]
    · by_cases h2 : k₁ = k'
      · subst h2
        simp [mapInsert, h1, mapLookup, hne]
      · by_cases h3 : k = k'
        · simp [mapInsert, h1, h2, mapLookup, h3]
        · simp [mapInsert, h1, h2, mapLookup, h3, ih]

theorem mapInsert_mapInsert_self {κ ν : Type} [DecidableEq κ] {klt : κ → κ → Bool}
    (H : StrictCmp klt) (k : κ) (v₁ v₂ : ν) (m : List (κ × ν)) :
    mapInsert klt k v₂ (mapInsert klt k v₁ m) = mapInsert klt k v₂ m := by
  induction m with
  | nil => simp [mapInsert, H.irrefl k]
  | cons kv rest ih =>
    obtain ⟨k', v'⟩ := kv
    by_cases h1 : klt k k' = true
    · simp [mapInsert, h1, H.irrefl k]
    · by_cases h2 : k = k'
      · simp [mapInsert, h1, h2, H.irrefl k']
      · simp [mapInsert, h1, h2, ih]

theorem mapInsert_comm {κ ν : Type} [DecidableEq κ] {klt : κ → κ → Bool}
    (H : StrictCmp klt) {k₁ k₂ : κ} (v₁ v₂ : ν) (m : List (κ × ν)) (hne : k₁ ≠ k₂) :
    mapInsert klt k₁ v₁ (mapInsert klt k₂ v₂ m) =
      mapInsert klt k₂ v₂ (mapInsert klt k₁ v₁ m) := by
  have hlt : klt k₁ k₂ = true ∨ klt k₂ k₁ = true := by
    rcases H.tri k₁ k₂ with h | h | h
    · exact Or.inl h
    · exact absurd h hne
    · exact Or.inr h
  induction m with
  | nil =>
    rcases hlt with h | h
    · simp [mapInsert, h, H.asym _ _ h, Ne.symm hne]
    · simp [mapInsert, h, H.asym _ _ h, hne]
  | cons kv rest ih =>
    obtain ⟨k', v'⟩ := kv
    by_cases ha1 : klt k₁ k' = true
    · by_cases ha2 : klt k₂ k' = true
      · rcases hlt with h | h
        · simp [mapInsert, ha1, ha2, h, H.asym _ _ h, Ne.symm hne]
        · simp [mapInsert, ha1, ha2, h, H.asym _ _ h, hne]
      · by_cases hb2 : k₂ = k'
        · subst hb2
          have h12 : klt k₁ k₂ = true := ha1
          simp [mapInsert, ha1, ha2, h12, H.asym _ _ h12, H.irrefl, Ne.symm hne]
        · have h12 : klt k₁ k₂ = true := by
            rcases H.tri k' k₂ with h | h | h
            · exact H.trans _ _ _ ha1 h
            · exact absurd h.symm hb2
            · exact absurd h (by simp [ha2])
          simp [mapInsert, ha1, ha2, hb2, h12, H.asym _ _ h12, Ne.symm hne]
    · by_cases hb1 : k₁ = k'
      · subst hb1
        by_cases ha2 : klt k₂ k₁ = true
        · simp [mapInsert, ha1, ha2, H.asym _ _ ha2, hne, Ne.symm hne]
        · by_cases hb2 : k₂ = k₁
          · exact absurd hb2.symm hne
          · have h12 : klt k₁ k₂ = true := by
              rcases H.tri k₁ k₂ with h | h | h
              · exact h
              · exact absurd h hne
              · exact absurd h (by simp [ha2])
            simp [mapInsert, ha1, ha2, hb2, Ne.symm hb2, h12, H.asym _ _ h12, H.irrefl]
      · by_cases ha2 : klt k₂ k' = true
        · have h21 : klt k₂ k₁ = true := by
            rcases H.tri k' k₁ with h | h | h
            · exact H.trans _ _ _ ha2 h
            · exact absurd h.symm hb1
            · exact absurd h (by simp [ha1])
          simp [mapInsert, ha1, hb1, ha2, h21, H.asym _ _ h21, hne]
        · by_cases hb2 : k₂ = k'
          · subst hb2
            have h21 : klt k₂ k₁ = true := by
              rcases H.tri k₂ k₁ with h | h | h
              · exact h
              · exact absurd h (Ne.symm hne)
              · exact absurd h (by simp [ha1])
            simp [mapInsert, ha1, hb1, ha2, h21, H.asym _ _ h21, H.irrefl]
          · simp [mapInsert, ha1, hb1, ha2, hb2, ih]

theorem mapLookup_mem {κ ν : Type} [DecidableEq κ] {k : κ} {v : ν} :
    ∀ {m : List (κ × ν)}, mapLookup k m = some v → (k, v) ∈ m := by
  intro m
  induction m with
  | nil => simp [mapLookup]
  | cons kv rest ih =>
    obtain ⟨k', v'⟩ := kv
    by_cases h : k = k'
    · subst h
      simp only [mapLookup, if_pos rfl]
      intro h2
      injection h2 with hv
      subst hv
      exact List.mem_cons_self _ _
    · simp only [mapLookup, if_neg h]
      intro h2
      exact List.mem_cons_of_mem _ (ih h2)

theorem mem_mapInsert {κ ν : Type} [DecidableEq κ] (klt : κ → κ → Bool)
    {kv : κ × ν} {k : κ} {v : ν} :
    ∀ {m : List (κ × ν)}, kv ∈ mapInsert klt k v m → kv = (k, v) ∨ kv ∈ m := by
  intro m
  induction m with
  | nil => simp [mapInsert]
  | cons kv' rest ih =>
    obtain ⟨k', v'⟩ := kv'
    by_cases h1 : klt k k' = true
    · simp only [mapInsert, if_pos h1]
      intro h
      rcases List.mem_cons.mp h with h | h
      · exact Or.inl h
      · exact Or.inr h
    · by_cases h2 : k = k'
      · subst h2
        simp only [mapInsert, if_neg h1, if_pos rfl]
        intro h
        rcases List.mem_cons.mp h with h | h
        · exact Or.inl h
        · exact Or.inr (List.mem_cons_of_mem _ h)
      · simp only [mapInsert, if_neg h1, if_neg h2]
        intro h
        rcases List.mem_cons.mp h with h | h
        · exact Or.inr (List.mem_cons.mpr (Or.inl h))
        · rcases ih h with h' | h'
          · exact Or.inl h'
          · exact Or.inr (List.mem_cons_of_mem _ h')

theorem mapLookup_isSome_iff {κ ν : Type} [DecidableEq κ] (k : κ) :
    ∀ (m : List (κ × ν)), (mapLookup k m).isSome = true ↔ k ∈ m.map Prod.fst := by
  intro m
  induction m with
  | nil => simp [mapLookup]
  | cons kv rest ih =>
    obtain ⟨k', v'⟩ := kv
    by_cases h : k = k'
    · subst h
      simp [mapLookup]
    · simp [mapLookup, h, ih]

theorem mem_setInsert (x y : String) :
    ∀ (l : List String), y ∈ setInsert x l ↔ y = x ∨ y ∈ l := by
  intro l
  induction l with
  | nil => simp [setInsert]
  | cons z zs ih =>
    simp only [setInsert]
    by_cases h1 : strlt x z = true
    · rw [if_pos h1]
      simp
    · rw [if_neg h1]
      by_cases h2 : x = z
      · subst h2
        rw [if_pos rfl]
        simp
      · rw [if_neg h2]
        simp [ih]
        tauto

theorem sorted_setInsert {x : String} :
    ∀ {l : List String}, SortedStr l → SortedStr (setInsert x l) := by
  intro l
  induction l with
  | nil => intro _; simp [setInsert, SortedStr]
  | cons z zs ih =>
    intro hs
    rw [SortedStr, List.pairwise_cons] at hs
    obtain ⟨hz, hzs⟩ := hs
    simp only [setInsert]
    by_cases h1 : strlt x z = true
    · rw [if_pos h1]
      rw [SortedStr, List.pairwise_cons]
      refine ⟨?_, List.pairwise_cons.mpr ⟨hz, hzs⟩⟩
      intro b hb
      rcases List.mem_cons.mp hb with h | h
      · exact h ▸ h1
      · exact strlt_strictCmp.trans _ _ _ h1 (hz b h)
    · rw [if_neg h1]
      by_cases h2 : x = z
      · rw [if_pos h2]
        exact List.pairwise_cons.mpr ⟨hz, hzs⟩
      · rw [if_neg h2]
        rw [SortedStr, List.pairwise_cons]
        refine ⟨?_, ih hzs⟩
        intro b hb
        rcases (mem_setInsert x b zs).mp hb with h | h
        · subst h
          rcases strlt_strictCmp.tri b z with h | h | h
          · exact absurd h h1
          · exact absurd h h2
          · exact h
        · exact hz b h

theorem mem_setUnion (a b : List String) (x : String) :
    x ∈ setUnion a b ↔ x ∈ a ∨ x ∈ b := by
  induction b generalizing a with
  | nil => simp [setUnion]
  | cons y ys ih =>
    rw [setUnion, List.foldl_cons]
    have h : List.foldl (fun acc x => setInsert x acc) (setInsert y a) ys
        = setUnion (setInsert y a) ys := rfl
    rw [h, ih]
    simp [mem_setInsert]
    tauto

theorem sorted_setUnion {a : List String} (b : List String) (ha : SortedStr a) :
    SortedStr (setUnion a b) := by
  induction b generalizing a with
  | nil => exact ha
  | cons y ys ih =>
    rw [setUnion, List.foldl_cons]
    exact ih (sorted_setInsert ha)

theorem sorted_ext : ∀ {l₁ l₂ : List String}, SortedStr l₁ → SortedStr l₂ →
    (∀ x, x ∈ l₁ ↔ x ∈ l₂) → l₁ = l₂ := by
  intro l₁
  induction l₁ with
  | nil =>
    intro l₂ _ _ hmem
    cases l₂ with
    | nil => rfl
    | cons y ys => exact absurd ((hmem y).mpr (List.mem_cons_self y ys)) (List.not_mem_nil y)
  | cons x xs ih =>
    intro l₂ h₁ h₂ hmem
    cases l₂ with
    | nil => exact absurd ((hmem x).mp (List.mem_cons_self x xs)) (List.not_mem_nil x)
    | cons y ys =>
      rw [SortedStr, List.pairwise_cons] at h₁ h₂
      obtain ⟨hx, hxs⟩ := h₁
      obtain ⟨hy, hys⟩ := h₂
      have hxy : x = y := by
        rcases List.mem_cons.mp ((hmem x).mp (List.mem_cons_self x xs)) with h | h
        · exact h
        · have h1 : strlt y x = true := hy x h
          rcases List.mem_cons.mp ((hmem y).mpr (List.mem_cons_self y ys)) with h' | h'
          · exact h'.symm
          · have h2 : strlt x y = true := hx y h'
            have h3 := strlt_strictCmp.asym _ _ h1
            rw [h2] at h3
            exact Bool.noConfusion h3
      subst hxy
      have htl : ∀ z, z ∈ xs ↔ z ∈ ys := by
        intro z
        constructor
        · intro hz
          have hlt := hx z hz
          rcases List.mem_cons.mp ((hmem z).mp (List.mem_cons_of_mem _ hz)) with h | h
          · subst h
            rw [strlt_strictCmp.irrefl z] at hlt
            exact Bool.noConfusion hlt
          · exact h
        · intro hz
          have hlt := hy z hz
          rcases List.mem_cons.mp ((hmem z).mpr (List.mem_cons_of_mem _ hz)) with h | h
          · subst h
            rw [strlt_strictCmp.irrefl z] at hlt
            exact Bool.noConfusion hlt
          · exact h
      exact congrArg (x :: ·) (ih hxs hys htl)

theorem setUnion_right_comm (a b c : List String) (ha : SortedStr a) :
    setUnion (setUnion a b) c = setUnion (setUnion a c) b := by
  apply sorted_ext
  · exact sorted_setUnion _ (sorted_setUnion _ ha)
  · exact sorted_setUnion _ (sorted_setUnion _ ha)
  · intro x
    simp [mem_setUnion]
    tauto

theorem setUnion_comm (a b : List String) (ha : SortedStr a) (hb : SortedStr b) :
    setUnion a b = setUnion b a := by
  apply sorted_ext
  · exact sorted_setUnion _ ha
  · exact sorted_setUnion _ hb
  · intro x
    simp [mem_setUnion]
    tauto

/-- `CrateType` (aquery.rs lines 71-81). -/
inductive CrateType
  | Bin
  | Rlib
  | Lib
  | Dylib
  | Cdylib
  | Staticlib
  | ProcMacro
deriving DecidableEq

/-- `CrateSpecSource` (aquery.rs lines 97-102); directories as path strings. -/
structure CrateSpecSource where
  exclude_dirs : List String
  include_dirs : List String
deriving DecidableEq

/-- `CrateSpec` (aquery.rs lines 50-69).  `deps` is a `BTreeSet<String>`
(sorted duplicate-free list), `aliases` and `env` are `BTreeMap`s (sorted
association lists); `Utf8PathBuf` fields are strings as in the source. -/
structure CrateSpec where
  aliases : List (String × String)
  crate_id : String
  display_name : String
  edition : String
  root_module : String
  is_workspace_member : Bool
  deps : List String
  proc_macro_dylib_path : Option String
  source : Option CrateSpecSource
  cfg : List String
  env : List (String × String)
  target : String
  crate_type : CrateType
  build_file : Option String
  bazel_target : String
deriving DecidableEq

/-- `TargetKind` (rust_project.rs lines 131-136). -/
inductive TargetKind
  | Bin
  | Lib
deriving DecidableEq

/-- `impl From<CrateType> for TargetKind` (aquery.rs lines 83-95). -/
def crateTypeToTargetKind : CrateType → TargetKind
  | CrateType.Bin => TargetKind.Bin
  | CrateType.Rlib => TargetKind.Lib
  | CrateType.Lib => TargetKind.Lib
  | CrateType.Dylib => TargetKind.Lib
  | CrateType.Cdylib => TargetKind.Lib
  | CrateType.Staticlib => TargetKind.Lib
  | CrateType.ProcMacro => TargetKind.Lib

/-- `p` occurs at the start of `l` (character-list version). -/
def startsWithL : List Char → List Char → Bool
  | [], _ => true
  | _ :: _, [] => false
  | a :: p, b :: l => a == b && startsWithL p l

/-- `p` occurs as a contiguous run somewhere in the second list. -/
def containsSubL (p : List Char) : List Char → Bool
  | [] => startsWithL p []
  | b :: l => startsWithL p (b :: l) || containsSubL p l

/-- Rust `str::contains(pat)`: `pat` is a contiguous substring of `s`. -/
def strContainsSub (s pat : String) : Bool := containsSubL pat.data s.data

/-- `OPT_PATH_COMPONENT` (aquery.rs line 252): the substring marking an
opt-exec build configuration in a proc-macro dylib path. -/
def OPT_PATH_COMPONENT : String := "-opt-exec-"

/-- One merge step of `consolidate_crate_specs` (aquery.rs lines 233-256):
fold the incoming `spec` into the `existing` entry sharing its `crate_id`.
The Rust code mutates the map entry in place; re-inserting at the equal key
replaces the value at the same position. -/
def mergeSpec (existing spec : CrateSpec) : CrateSpec :=
  let e1 := { existing with deps := setUnion existing.deps spec.deps }
  let newCfg := spec.cfg.filter (fun cfg => !(e1.cfg.contains cfg))
  let e2 := { e1 with cfg := e1.cfg ++ newCfg }
  let e3 :=
    if spec.crate_type = CrateType.Rlib then
      { e2 with display_name := spec.display_name, crate_type := CrateType.Rlib }
    else e2
  match spec.proc_macro_dylib_path with
  | some dylib_path =>
    if strContainsSub dylib_path OPT_PATH_COMPONENT then
      { e3 with proc_macro_dylib_path := some dylib_path }
    else e3
  | none => e3

/-- The loop body of `consolidate_crate_specs` (aquery.rs lines 231-259):
merge `spec` into the entry sharing its `crate_id`, or insert it fresh. -/
def consolidateStep (consolidated_specs : List (String × CrateSpec))
    (spec : CrateSpec) : List (String × CrateSpec) :=
  match mapLookup spec.crate_id consolidated_specs with
  | some existing =>
      mapInsert strlt spec.crate_id (mergeSpec existing spec) consolidated_specs
  | none => mapInsert strlt spec.crate_id spec consolidated_specs

/-- The `BTreeMap<String, CrateSpec>` built by `consolidate_crate_specs`
(aquery.rs lines 229-260), as its sorted association list. -/
def consolidateMap (crate_specs : List CrateSpec) : List (String × CrateSpec) :=
  crate_specs.foldl consolidateStep []

/-- `consolidate_crate_specs` (aquery.rs lines 229-263).  The function
returns `Ok(consolidated_specs.into_values().collect::<BTreeSet<_>>())`;
we return the map itself, which carries the same information: the map has
one value per distinct `crate_id`, so two runs produce equal `BTreeSet`s
exactly when they produce equal maps. -/
def consolidate_crate_specs (crate_specs : List CrateSpec) :
    Except String (List (String × CrateSpec)) :=
  Except.ok (consolidateMap crate_specs)

/-- `Dependency` (rust_project.rs lines 229-237). -/
structure Dependency where
  crate_index : Nat
  name : String
deriving DecidableEq

/-- `Build` (rust_project.rs lines 191-214). -/
structure Build where
  label : String
  build_file : String
  target_kind : TargetKind
deriving DecidableEq

/-- `Source` (rust_project.rs lines 216-220). -/
structure Source where
  include_dirs : List String
  exclude_dirs : List String
deriving DecidableEq

/-- `Crate` (rust_project.rs lines 82-127). -/
structure Crate where
  display_name : Option String
  root_module : String
  edition : String
  deps : List Dependency
  cfg : List String
  target : Option String
  env : List (String × String)
  proc_macro_dylib_path : Option String
  is_workspace_member : Option Bool
  source : Source
  is_proc_macro : Bool
  build : Option Build
deriving DecidableEq

/-- `RunnableKind` (rust_project.rs lines 180-189). -/
inductive RunnableKind
  | Check
  | TestOne
deriving DecidableEq

/-- `Runnable` (rust_project.rs lines 162-177). -/
structure Runnable where
  program : String
  args : List String
  cwd : String
  kind : RunnableKind
deriving DecidableEq

/-- `RustProject` (rust_project.rs lines 34-77). -/
structure RustProject where
  sysroot : Option String
  sysroot_src : Option String
  crates : List Crate
  runnables : List Runnable
deriving DecidableEq

/-- Inert value modelling unreachable indexing/`expect` results. -/
def defaultCrate : Crate :=
  { display_name := none, root_module := "", edition := "", deps := [], cfg := [],
    target := none, env := [], proc_macro_dylib_path := none, is_workspace_member := none,
    source := { include_dirs := [], exclude_dirs := [] }, is_proc_macro := false,
    build := none }

/-- Resolution of one dependency id (rust_project.rs lines 300-314): index
lookup, then the alias declared by the depending crate if any, else the
display name of the already-placed dependency crate.  The `expect` on a
missing index (impossible: the readiness check just passed) and the
`expect` on a missing display name (impossible: every pushed crate has
one) are modelled by inert defaults. -/
def resolveDep (merged_crates_index : List (String × Nat)) (crates : List Crate)
    (c : CrateSpec) (dep : String) : Dependency :=
  match mapLookup dep merged_crates_index with
  | some crate_index =>
    let dep_crate := crates.getD crate_index defaultCrate
    let name :=
      match mapLookup dep c.aliases with
      | some a => a
      | none => dep_crate.display_name.getD ""
    { crate_index := crate_index, name := name }
  | none => { crate_index := 0, name := "" }

/-- The `Crate` pushed for a ready spec (rust_project.rs lines 293-335). -/
def mkCrate (merged_crates_index : List (String × Nat)) (crates : List Crate)
    (c : CrateSpec) : Crate :=
  { display_name := some c.display_name
    root_module := c.root_module
    edition := c.edition
    deps := c.deps.map (resolveDep merged_crates_index crates c)
    is_workspace_member := some c.is_workspace_member
    source :=
      match c.source with
      | some s => { exclude_dirs := s.exclude_dirs, include_dirs := s.include_dirs }
      | none => { include_dirs := [], exclude_dirs := [] }
    cfg := c.cfg
    target := some c.target
    env := c.env
    is_proc_macro := c.proc_macro_dylib_path.isSome
    proc_macro_dylib_path := c.proc_macro_dylib_path
    build := c.build_file.map (fun build_file =>
      { label := c.bazel_target
        build_file := build_file
        target_kind := crateTypeToTargetKind c.crate_type }) }

/-- One pass of the while-loop of `generate_rust_project` (rust_project.rs
lines 275-337): scan `unmerged_crates` in order; a crate with a dependency
missing from `merged_crates_index` is pushed onto `skipped_crates`; any
other crate is assigned the next position (index inserted before the crate
is built, as in the source) and its `Crate` is pushed. -/
def runPass (unmerged_crates skipped_crates : List CrateSpec)
    (merged_crates_index : List (String × Nat)) (crates : List Crate) :
    List CrateSpec × List (String × Nat) × List Crate :=
  match unmerged_crates with
  | [] => (skipped_crates, merged_crates_index, crates)
  | c :: rest =>
    if c.deps.any (fun dep => !(mapContains dep merged_crates_index)) then
      runPass rest (skipped_crates ++ [c]) merged_crates_index crates
    else
      let idx := mapInsert strlt c.crate_id crates.length merged_crates_index
      runPass rest skipped_crates idx (crates ++ [mkCrate idx crates c])

/-- The while-loop of `generate_rust_project` (rust_project.rs lines
274-369): run passes until no crate is left; if a pass places nothing
(`unmerged_crates.len() == skipped_crates.len()`) the cycle diagnostics
are logged and the loop fails.  The loop is given fuel so that it is
structurally recursive; a successful pass strictly shrinks the unmerged
list, so fuel equal to the initial list length (what
`generate_rust_project` passes) is never exhausted: the fuel-out branch
returns the very error the source loop is then bound to return. -/
def buildLoop : Nat → List CrateSpec → List (String × Nat) → List Crate →
    Except String (List Crate)
  | _, [], _, crates => Except.ok crates
  | 0, _ :: _, _, _ =>
    Except.error "Failed to make progress on building crate dependency graph"
  | fuel + 1, c :: rest, merged_crates_index, crates =>
    let r := runPass (c :: rest) [] merged_crates_index crates
    if r.1.length = (c :: rest).length then
      Except.error "Failed to make progress on building crate dependency graph"
    else
      buildLoop fuel r.1 r.2.1 r.2.2

/-- The two fixed runnables of the produced project (rust_project.rs lines
249-267). -/
def projectRunnables (workspace : String) : List Runnable :=
  [ { program := "bazel", args := ["build", "\x7blabel\x7d"], cwd := workspace,
      kind := RunnableKind.Check },
    { program := "bazel",
      args := ["test", "\x7blabel\x7d", "--", "\x7btest_id\x7d"], cwd := workspace,
      kind := RunnableKind.TestOne } ]

/-- `generate_rust_project` (rust_project.rs lines 239-372).  The input
`BTreeSet<CrateSpec>` is consumed in its iteration order, taken here as an
explicit list argument. -/
def generate_rust_project (workspace sysroot sysroot_src : String)
    (crates : List CrateSpec) : Except String RustProject :=
  match buildLoop crates.length crates [] [] with
  | Except.ok cs =>
    Except.ok
      { sysroot := some sysroot, sysroot_src := some sysroot_src,
        crates := cs, runnables := projectRunnables workspace }
  | Except.error e => Except.error e

/-- The `for dep in &current_crate.deps` loop of `detect_cycle`
(rust_project.rs lines 390-399): the first dependency whose traversal
finds a cycle wins; ids missing from the map are skipped (logged only).
The recursive traversal one level deeper is passed in as `recur`. -/
def detectCycleDeps (recur : CrateSpec → List CrateSpec → Option (List CrateSpec))
    (all_crates : List (String × CrateSpec)) :
    List String → List CrateSpec → Option (List CrateSpec)
  | [], _ => none
  | dep :: rest, path =>
    match mapLookup dep all_crates with
    | some dep_crate =>
      match recur dep_crate path with
      | some cycle => some cycle
      | none => detectCycleDeps recur all_crates rest path
    | none => detectCycleDeps recur all_crates rest path

/-- `detect_cycle` (rust_project.rs lines 374-404), with explicit fuel.
The Rust function threads a mutable `path`: a call that returns `None`
restores `path` before returning, so the functional reading passes the
extended path down and simply drops it on return.  Exhausted fuel models
unbounded recursion; the path only ever grows by crates of `all_crates`
with ids not yet on it, so fuel beyond the map size is never consumed. -/
def detect_cycle : Nat → CrateSpec → List (String × CrateSpec) → List CrateSpec →
    Option (List CrateSpec)
  | 0, _, _, _ => none
  | fuel + 1, current_crate, all_crates, path =>
    if path.any (fun dependent_crate => dependent_crate.crate_id == current_crate.crate_id) then
      some (path ++ [current_crate])
    else
      detectCycleDeps (fun c p => detect_cycle fuel c all_crates p) all_crates
        current_crate.deps (path ++ [current_crate])

/-- `Artifact` (aquery.rs lines 21-26). -/
structure Artifact where
  id : Nat
  path_fragment_id : Nat
deriving DecidableEq

/-- `PathFragment` (aquery.rs lines 28-34). -/
structure PathFragment where
  id : Nat
  label : String
  parent_id : Option Nat
deriving DecidableEq

/-- `Target` (aquery.rs lines 36-41). -/
structure Target where
  id : Nat
  label : String
deriving DecidableEq

/-- `Action` (aquery.rs lines 43-48); named `AqueryAction` here because
Mathlib already declares `Action`. -/
structure AqueryAction where
  output_ids : List Nat
  target_id : Nat
deriving DecidableEq

/-- `AqueryOutput` (aquery.rs lines 12-19). -/
structure AqueryOutput where
  artifacts : List Artifact
  actions : List AqueryAction
  path_fragments : List PathFragment
  targets : List Target
deriving DecidableEq

/-- `path_from_fragments` (aquery.rs lines 210-225), with explicit fuel
for the parent-walking recursion.  Paths are lists of components;
`Utf8PathBuf::join` appends a component.  A missing fragment id is the
`expect` panic (an internal-consistency fault); exhausted fuel models the
divergence of the Rust recursion on a cyclic fragment table. -/
def path_from_fragments (fuel : Nat) (id : Nat)
    (fragments : List (Nat × PathFragment)) : Except String (List String) :=
  match fuel with
  | 0 => Except.error "recursion limit"
  | fuel + 1 =>
    match mapLookup id fragments with
    | none => Except.error "internal consistency error in bazel output"
    | some path_fragment =>
      match path_fragment.parent_id with
      | some parent_id =>
        match path_from_fragments fuel parent_id fragments with
        | Except.ok buf => Except.ok (buf ++ [path_fragment.label])
        | Except.error e => Except.error e
      | none => Except.ok [path_fragment.label]

/-- `collect::<BTreeMap<_, _>>()` over id-keyed pairs; later entries
shadow earlier ones, as in `BTreeMap::from_iter`. -/
def natMapOfList {ν : Type} (l : List (Nat × ν)) : List (Nat × ν) :=
  l.foldl (fun m kv => mapInsert Nat.blt kv.1 kv.2 m) []

/-- The `for output_id in action.output_ids` loop of
`parse_aquery_output_files` (aquery.rs lines 192-204): resolve each output
artifact to a path under `execution_root` and push it onto the entry when
it exists on the file system `fs`; a non-existing path is only logged.
The `expect` on a missing artifact id is modelled as an error. -/
def collectOutputs (fuel : Nat) (execution_root : List String)
    (artifacts : List (Nat × Artifact)) (path_fragments : List (Nat × PathFragment))
    (fs : List String → Bool) (entry : List (List String)) :
    List Nat → Except String (List (List String))
  | [] => Except.ok entry
  | output_id :: rest =>
    match mapLookup output_id artifacts with
    | none => Except.error "internal consistency error in bazel output: missing artifact"
    | some artifact =>
      match path_from_fragments fuel artifact.path_fragment_id path_fragments with
      | Except.error e => Except.error e
      | Except.ok p =>
        let path := execution_root ++ p
        if fs path then
          collectOutputs fuel execution_root artifacts path_fragments fs (entry ++ [path]) rest
        else
          collectOutputs fuel execution_root artifacts path_fragments fs entry rest

/-- The `for action in out.actions` loop of `parse_aquery_output_files`
(aquery.rs lines 184-205): resolve the action's target label (`expect` on
a missing id modelled as an error), take the current entry for it
(`entry(..).or_default()`), and extend it with the action's existing
output paths. -/
def parseActions (fuel : Nat) (execution_root : List String)
    (artifacts : List (Nat × Artifact)) (path_fragments : List (Nat × PathFragment))
    (targets : List (Nat × String)) (fs : List String → Bool) :
    List AqueryAction → List (String × List (List String)) →
    Except String (List (String × List (List String)))
  | [], output_files => Except.ok output_files
  | action :: rest, output_files =>
    match mapLookup action.target_id targets with
    | none => Except.error "internal consistency error in bazel output: missing target"
    | some target =>
      let entry := (mapLookup target output_files).getD []
      match collectOutputs fuel execution_root artifacts path_fragments fs entry
          action.output_ids with
      | Except.error e => Except.error e
      | Except.ok entry2 =>
        parseActions fuel execution_root artifacts path_fragments targets fs rest
          (mapInsert strlt target entry2 output_files)

/-- The artifact-id map of `parse_aquery_output_files` (aquery.rs 167-171). -/
def aqueryArtifacts (out : AqueryOutput) : List (Nat × Artifact) :=
  natMapOfList (out.artifacts.map (fun a => (a.id, a)))

/-- The fragment-id map of `parse_aquery_output_files` (aquery.rs 172-176). -/
def aqueryFragments (out : AqueryOutput) : List (Nat × PathFragment) :=
  natMapOfList (out.path_fragments.map (fun pf => (pf.id, pf)))

/-- The target-id-to-label map of `parse_aquery_output_files`
(aquery.rs 177-181). -/
def aqueryTargets (out : AqueryOutput) : List (Nat × String) :=
  natMapOfList (out.targets.map (fun t => (t.id, t.label)))

/-- `parse_aquery_output_files` (aquery.rs lines 150-208) after JSON
decoding, which is owned by serde: build the three id-keyed maps, then
join each action to its target label and the resolved, existing output
paths.  The file system is the explicit predicate `fs`.  The fragment-walk
fuel is one more than the fragment-table length — enough for every acyclic
parent chain, cf. the termination theorems for `path_from_fragments`. -/
def parse_aquery_output_files (execution_root : List String) (out : AqueryOutput)
    (fs : List String → Bool) : Except String (List (String × List (List String))) :=
  parseActions (out.path_fragments.length + 1) execution_root (aqueryArtifacts out)
    (aqueryFragments out) (aqueryTargets out) fs out.actions []

deriving instance DecidableEq for Except

/-- Baseline concrete spec for the concrete instances below. -/
def specBase : CrateSpec :=
  { aliases := [], crate_id := "ID-base", display_name := "base", edition := "2018",
    root_module := "base.rs", is_workspace_member := true, deps := [],
    proc_macro_dylib_path := none, source := none, cfg := ["test"], env := [],
    target := "x86_64-unknown-linux-gnu", crate_type := CrateType.Rlib,
    build_file := none, bazel_target := "//pkg:base" }

/-- Spec with cfg list `["cfga"]`, otherwise `specBase`. -/
def specCfgA : CrateSpec := { specBase with cfg := ["cfga"] }

/-- Spec with cfg list `["cfgb"]`, otherwise `specBase`. -/
def specCfgB : CrateSpec := { specBase with cfg := ["cfgb"] }

/-- A library-kind (`Lib`, not `Rlib`) spec. -/
def specLibKind : CrateSpec :=
  { specBase with
    crate_id := "ID-l", display_name := "lib_name", crate_type := CrateType.Lib }

/-- A binary-kind spec sharing `specLibKind`'s crate id. -/
def specBinKind : CrateSpec :=
  { specBase with
    crate_id := "ID-l", display_name := "bin_name", crate_type := CrateType.Bin }

/-- A unit whose single dependency id is absent from every input set it is
used in. -/
def specDangling : CrateSpec :=
  { specBase with crate_id := "ID-u", display_name := "u", deps := ["ID-missing"] }

/-- Unit `x` of the two-cycle `x -> y -> x`. -/
def specX : CrateSpec :=
  { specBase with crate_id := "ID-x", display_name := "x", deps := ["ID-y"] }

/-- Unit `y` of the two-cycle `x -> y -> x`. -/
def specY : CrateSpec :=
  { specBase with crate_id := "ID-y", display_name := "y", deps := ["ID-x"] }

/-- Unit `z`, outside the cycle but depending on `x`. -/
def specZ : CrateSpec :=
  { specBase with crate_id := "ID-z", display_name := "z", deps := ["ID-x"] }

/-- The crate map `detect_cycle` receives for the two remaining units. -/
def cycleMapXY : List (String × CrateSpec) := [("ID-x", specX), ("ID-y", specY)]

/-- The crate map for remaining units `x`, `y`, `z`. -/
def cycleMapXYZ : List (String × CrateSpec) :=
  [("ID-x", specX), ("ID-y", specY), ("ID-z", specZ)]

/-- Fragment table for the chain root "a" <- "b" <- "c". -/
def fragChainABC : List (Nat × PathFragment) :=
  [(1, { id := 1, label := "a", parent_id := none }),
   (2, { id := 2, label := "b", parent_id := some 1 }),
   (3, { id := 3, label := "c", parent_id := some 2 })]

/-- A spec with its dependency set removed; two specs "agree except on
dependencies" when their `eraseDeps` images coincide. -/
def eraseDeps (s : CrateSpec) : CrateSpec := { s with deps := [] }

/-- `v` agrees (apart from dependencies) with every spec of `l` that
shares its `crate_id`. -/
def AgreeOn (l : List CrateSpec) (v : CrateSpec) : Prop :=
  ∀ t ∈ l, v.crate_id = t.crate_id → eraseDeps v = eraseDeps t

/-- Invariant of the consolidation fold relative to the ambient input list
`l`: every map entry is keyed by its value's `crate_id`, agrees with the
same-id specs of `l` apart from dependencies, and has a sorted dependency
set. -/
def GoodMap (l : List CrateSpec) (m : List (String × CrateSpec)) : Prop :=
  ∀ kv ∈ m, kv.1 = kv.2.crate_id ∧ AgreeOn l kv.2 ∧ SortedStr kv.2.deps

/-- Executable well-formedness of the fragment parent walk from `id`:
within `n` lookups the walk stays inside the table and reaches a
parentless root. -/
def chainOk (fragments : List (Nat × PathFragment)) : Nat → Nat → Bool
  | 0, _ => false
  | n + 1, id =>
    match mapLookup id fragments with
    | none => false
    | some pf =>
      match pf.parent_id with
      | none => true
      | some parent_id => chainOk fragments n parent_id

/-- Specification-side reading of the Path Resolver contract: `ls` is the
sequence of labels on the parent chain ending at fragment `id`, listed
from the root down to `id` ("concatenating labels root-to-leaf"). -/
inductive RootChain (fragments : List (Nat × PathFragment)) : Nat → List String → Prop
  | root {id : Nat} {pf : PathFragment} :
      mapLookup id fragments = some pf → pf.parent_id = none →
      RootChain fragments id [pf.label]
  | step {id : Nat} {pf : PathFragment} {pid : Nat} {ls : List String} :
      mapLookup id fragments = some pf → pf.parent_id = some pid →
      RootChain fragments pid ls →
      RootChain fragments id (ls ++ [pf.label])

theorem path_from_fragments_total (fragments : List (Nat × PathFragment)) :
    ∀ (n id : Nat), chainOk fragments n id = true →
    ∃ ls, RootChain fragments id ls ∧
      ∀ fuel, n ≤ fuel → path_from_fragments fuel id fragments = Except.ok ls := by
  intro n
  induction n with
  | zero => intro id h; simp [chainOk] at h
  | succ n ih =>
    intro id h
    simp only [chainOk] at h
    cases hl : mapLookup id fragments with
    | none => simp [hl] at h
    | some pf =>
      simp only [hl] at h
      cases hp : pf.parent_id with
      | none =>
        refine ⟨[pf.label], RootChain.root hl hp, ?_⟩
        intro fuel hf
        cases fuel with
        | zero => omega
        | succ f => simp [path_from_fragments, hl, hp]
      | some pid =>
        simp only [hp] at h
        obtain ⟨ls, hchain, heval⟩ := ih pid h
        refine ⟨ls ++ [pf.label], RootChain.step hl hp hchain, ?_⟩
        intro fuel hf
        cases fuel with
        | zero => omega
        | succ f =>
          have hfn : n ≤ f := Nat.le_of_succ_le_succ hf
          simp [path_from_fragments, hl, hp, heval f hfn]

theorem runPass_skipped_sub :
    ∀ (u s : List CrateSpec) (m : List (String × Nat)) (cr : List Crate),
    ∀ x ∈ (runPass u s m cr).1, x ∈ s ∨ x ∈ u := by
  intro u
  induction u with
  | nil => intro s m cr x hx; simp only [runPass] at hx; exact Or.inl hx
  | cons c rest ih =>
    intro s m cr x hx
    simp only [runPass] at hx
    by_cases hc : (c.deps.any fun dep => !mapContains dep m) = true
    · rw [if_pos hc] at hx
      rcases ih _ _ _ x hx with h | h
      · rcases List.mem_append.mp h with h | h
        · exact Or.inl h
        · simp only [List.mem_singleton] at h
          exact Or.inr (by simp [h])
      · exact Or.inr (List.mem_cons_of_mem _ h)
    · rw [if_neg hc] at hx
      rcases ih _ _ _ x hx with h | h
      · exact Or.inl h
      · exact Or.inr (List.mem_cons_of_mem _ h)

theorem runPass_index_keys :
    ∀ (u s : List CrateSpec) (m : List (String × Nat)) (cr : List Crate) (k : String),
    mapContains k (runPass u s m cr).2.1 = true →
    mapContains k m = true ∨ k ∈ u.map CrateSpec.crate_id := by
  intro u
  induction u with
  | nil => intro s m cr k h; simp only [runPass] at h; exact Or.inl h
  | cons c rest ih =>
    intro s m cr k h
    simp only [runPass] at h
    by_cases hc : (c.deps.any fun dep => !mapContains dep m) = true
    · rw [if_pos hc] at h
      rcases ih _ _ _ _ h with h' | h'
      · exact Or.inl h'
      · exact Or.inr (by simpa using Or.inr (by simpa using h'))
    · rw [if_neg hc] at h
      rcases ih _ _ _ _ h with h' | h'
      · by_cases hk : k = c.crate_id
        · exact Or.inr (by simp [hk])
        · left
          unfold mapContains at h' ⊢
          rwa [mapLookup_mapInsert_ne strlt _ _ hk] at h'
      · exact Or.inr (by simpa using Or.inr (by simpa using h'))

theorem runPass_stuck_mem (d : String) :
    ∀ (u s : List CrateSpec) (m : List (String × Nat)) (cr : List Crate) (x : CrateSpec),
    d ∈ x.deps → mapContains d m = false → d ∉ u.map CrateSpec.crate_id →
    (x ∈ u ∨ x ∈ s) → x ∈ (runPass u s m cr).1 := by
  intro u
  induction u with
  | nil =>
    intro s m cr x _ _ _ hx
    rcases hx with h | h
    · exact absurd h (List.not_mem_nil x)
    · simpa only [runPass] using h
  | cons c rest ih =>
    intro s m cr x hd hm hdu hx
    have hdrest : d ∉ rest.map CrateSpec.crate_id := by
      intro hmem; exact hdu (by simpa using Or.inr hmem)
    simp only [runPass]
    by_cases hc : (c.deps.any fun dep => !mapContains dep m) = true
    · rw [if_pos hc]
      apply ih (s ++ [c]) m cr x hd hm hdrest
      rcases hx with h | h
      · rcases List.mem_cons.mp h with h | h
        · exact Or.inr (List.mem_append.mpr (Or.inr (by simp [h])))
        · exact Or.inl h
      · exact Or.inr (List.mem_append.mpr (Or.inl h))
    · rw [if_neg hc]
      have hdc : d ≠ c.crate_id := by
        intro he
        exact hdu (by simp [he])
      have hxc : x ≠ c := by
        intro he
        subst he
        have hall : ∀ dep ∈ x.deps, mapContains dep m = true := by
          intro dep hdep
          cases hcd : mapContains dep m
          · exact absurd (List.any_eq_true.mpr ⟨dep, hdep, by simp [hcd]⟩) hc
          · rfl
        have := hall d hd
        rw [hm] at this
        exact Bool.noConfusion this
      apply ih s (mapInsert strlt c.crate_id cr.length m) _ x hd ?_ hdrest
      · rcases hx with h | h
        · rcases List.mem_cons.mp h with h | h
          · exact absurd h hxc
          · exact Or.inl h
        · exact Or.inr h
      · unfold mapContains
        rw [mapLookup_mapInsert_ne strlt _ _ hdc]
        exact hm

theorem buildLoop_stuck (d : String) (x : CrateSpec) (hd : d ∈ x.deps) :
    ∀ (fuel : Nat) (u : List CrateSpec) (m : List (String × Nat)) (cr : List Crate),
    x ∈ u → d ∉ u.map CrateSpec.crate_id → mapContains d m = false →
    buildLoop fuel u m cr
      = Except.error "Failed to make progress on building crate dependency graph" := by
  intro fuel
  induction fuel with
  | zero =>
    intro u m cr hx _ _
    cases u with
    | nil => exact absurd hx (List.not_mem_nil x)
    | cons c rest => rfl
  | succ fuel ih =>
    intro u m cr hx hdu hm
    cases u with
    | nil => exact absurd hx (List.not_mem_nil x)
    | cons c rest =>
      simp only [buildLoop]
      by_cases hlen :
          (runPass (c :: rest) [] m cr).1.length = (c :: rest).length
      · rw [if_pos hlen]
      · rw [if_neg hlen]
        apply ih
        · exact runPass_stuck_mem d _ _ _ _ x hd hm hdu (Or.inl hx)
        · intro hmem
          rcases List.mem_map.mp hmem with ⟨y, hy, hyid⟩
          rcases runPass_skipped_sub _ _ _ _ y hy with h | h
          · exact absurd h (List.not_mem_nil y)
          · exact hdu (List.mem_map.mpr ⟨y, h, hyid⟩)
        · cases hcm : mapContains d (runPass (c :: rest) [] m cr).2.1
          · rfl
          · rcases runPass_index_keys _ _ _ _ _ hcm with h | h
            · rw [hm] at h; exact Bool.noConfusion h
            · exact absurd h hdu

theorem runPass_cycle (x y : CrateSpec) (hne : x.crate_id ≠ y.crate_id)
    (hdx : y.crate_id ∈ x.deps) (hdy : x.crate_id ∈ y.deps) :
    ∀ (u s : List CrateSpec) (m : List (String × Nat)) (cr : List Crate),
    ((s ++ u).map CrateSpec.crate_id).Nodup →
    (x ∈ u ∨ x ∈ s) → (y ∈ u ∨ y ∈ s) →
    mapContains x.crate_id m = false → mapContains y.crate_id m = false →
    (x ∈ (runPass u s m cr).1 ∧ y ∈ (runPass u s m cr).1) ∧
    (mapContains x.crate_id (runPass u s m cr).2.1 = false ∧
     mapContains y.crate_id (runPass u s m cr).2.1 = false) ∧
    ((runPass u s m cr).1.map CrateSpec.crate_id).Nodup := by
  intro u
  induction u with
  | nil =>
    intro s m cr hnd hx hy hmx hmy
    simp only [runPass]
    refine ⟨⟨?_, ?_⟩, ⟨hmx, hmy⟩, ?_⟩
    · rcases hx with h | h
      · exact absurd h (List.not_mem_nil x)
      · exact h
    · rcases hy with h | h
      · exact absurd h (List.not_mem_nil y)
      · exact h
    · simpa using hnd
  | cons c rest ih =>
    intro s m cr hnd hx hy hmx hmy
    simp only [runPass]
    by_cases hc : (c.deps.any fun dep => !mapContains dep m) = true
    · rw [if_pos hc]
      have hnd' : (((s ++ [c]) ++ rest).map CrateSpec.crate_id).Nodup := by
        rw [List.append_assoc]
        simpa using hnd
      apply ih (s ++ [c]) m cr hnd' ?_ ?_ hmx hmy
      · rcases hx with h | h
        · rcases List.mem_cons.mp h with h | h
          · exact Or.inr (List.mem_append.mpr (Or.inr (by simp [h])))
          · exact Or.inl h
        · exact Or.inr (List.mem_append.mpr (Or.inl h))
      · rcases hy with h | h
        · rcases List.mem_cons.mp h with h | h
          · exact Or.inr (List.mem_append.mpr (Or.inr (by simp [h])))
          · exact Or.inl h
        · exact Or.inr (List.mem_append.mpr (Or.inl h))
    · rw [if_neg hc]
      have hall : ∀ dep ∈ c.deps, mapContains dep m = true := by
        intro dep hdep
        cases hcd : mapContains dep m
        · exact absurd (List.any_eq_true.mpr ⟨dep, hdep, by simp [hcd]⟩) hc
        · rfl
      have hcx : c ≠ x := by
        intro he
        subst he
        have h1 := hall y.crate_id hdx
        rw [hmy] at h1
        exact Bool.noConfusion h1
      have hcy : c ≠ y := by
        intro he
        subst he
        have h1 := hall x.crate_id hdy
        rw [hmx] at h1
        exact Bool.noConfusion h1
      have hcmem : c ∈ s ++ c :: rest := by simp
      have hidx : c.crate_id ≠ x.crate_id := by
        intro he
        have hxmem : x ∈ s ++ c :: rest := by
          rcases hx with h | h
          · exact List.mem_append.mpr (Or.inr h)
          · exact List.mem_append.mpr (Or.inl h)
        exact hcx (List.inj_on_of_nodup_map hnd hcmem hxmem he)
      have hidy : c.crate_id ≠ y.crate_id := by
        intro he
        have hymem : y ∈ s ++ c :: rest := by
          rcases hy with h | h
          · exact List.mem_append.mpr (Or.inr h)
          · exact List.mem_append.mpr (Or.inl h)
        exact hcy (List.inj_on_of_nodup_map hnd hcmem hymem he)
      have hnd' : ((s ++ rest).map CrateSpec.crate_id).Nodup := by
        refine hnd.sublist ?_
        exact ((List.sublist_cons_self c rest).append_left s).map CrateSpec.crate_id
      apply ih s (mapInsert strlt c.crate_id cr.length m) _ hnd' ?_ ?_ ?_ ?_
      · rcases hx with h | h
        · rcases List.mem_cons.mp h with h | h
          · exact absurd h.symm hcx
          · exact Or.inl h
        · exact Or.inr h
      · rcases hy with h | h
        · rcases List.mem_cons.mp h with h | h
          · exact absurd h.symm hcy
          · exact Or.inl h
        · exact Or.inr h
      · unfold mapContains
        rw [mapLookup_mapInsert_ne strlt _ _ (Ne.symm hidx)]
        exact hmx
      · unfold mapContains
        rw [mapLookup_mapInsert_ne strlt _ _ (Ne.symm hidy)]
        exact hmy

theorem buildLoop_cycle (x y : CrateSpec) (hne : x.crate_id ≠ y.crate_id)
    (hdx : y.crate_id ∈ x.deps) (hdy : x.crate_id ∈ y.deps) :
    ∀ (fuel : Nat) (u : List CrateSpec) (m : List (String × Nat)) (cr : List Crate),
    x ∈ u → y ∈ u → (u.map CrateSpec.crate_id).Nodup →
    mapContains x.crate_id m = false → mapContains y.crate_id m = false →
    buildLoop fuel u m cr
      = Except.error "Failed to make progress on building crate dependency graph" := by
  intro fuel
  induction fuel with
  | zero =>
    intro u m cr hx _ _ _ _
    cases u with
    | nil => exact absurd hx (List.not_mem_nil x)
    | cons c rest => rfl
  | succ fuel ih =>
    intro u m cr hx hy hnd hmx hmy
    cases u with
    | nil => exact absurd hx (List.not_mem_nil x)
    | cons c rest =>
      simp only [buildLoop]
      by_cases hlen :
          (runPass (c :: rest) [] m cr).1.length = (c :: rest).length
      · rw [if_pos hlen]
      · rw [if_neg hlen]
        have hmain := runPass_cycle x y hne hdx hdy (c :: rest) [] m cr
          (by simpa using hnd) (Or.inl hx) (Or.inl hy) hmx hmy
        exact ih _ _ _ hmain.1.1 hmain.1.2 hmain.2.2 hmain.2.1.1 hmain.2.1.2

theorem filter_contains_self (l : List String) :
    (l.filter fun c => !(l.contains c)) = [] := by
  rw [List.filter_eq_nil_iff]
  intro a ha
  simp [ha]

theorem eraseDeps_fields {a b : CrateSpec} (h : eraseDeps a = eraseDeps b) :
    a.crate_id = b.crate_id ∧ a.display_name = b.display_name ∧ a.cfg = b.cfg ∧
    a.crate_type = b.crate_type ∧ a.proc_macro_dylib_path = b.proc_macro_dylib_path := by
  have h1 := congrArg CrateSpec.crate_id h
  have h2 := congrArg CrateSpec.display_name h
  have h3 := congrArg CrateSpec.cfg h
  have h4 := congrArg CrateSpec.crate_type h
  have h5 := congrArg CrateSpec.proc_macro_dylib_path h
  exact ⟨h1, h2, h3, h4, h5⟩

theorem eraseDeps_withDeps (a : CrateSpec) (d : List String) :
    eraseDeps { a with deps := d } = eraseDeps a := rfl

theorem withDeps_congr {a b : CrateSpec} (h : eraseDeps a = eraseDeps b)
    (d : List String) : ({ a with deps := d } : CrateSpec) = { b with deps := d } :=
  congrArg (fun r => { r with deps := d }) h

theorem mergeSpec_agree {a s : CrateSpec} (h : eraseDeps a = eraseDeps s) :
    mergeSpec a s = { a with deps := setUnion a.deps s.deps } := by
  obtain ⟨hid, hdisp, hcfg, htype, hpath⟩ := eraseDeps_fields h
  cases hpp : s.proc_macro_dylib_path with
  | none =>
    simp only [mergeSpec, hpp]
    rw [← hcfg, filter_contains_self, List.append_nil]
    by_cases ht : s.crate_type = CrateType.Rlib
    · rw [if_pos ht, ← hdisp, ← ht, ← htype]
    · rw [if_neg ht]
  | some p =>
    simp only [mergeSpec, hpp]
    rw [← hcfg, filter_contains_self, List.append_nil]
    by_cases ht : s.crate_type = CrateType.Rlib
    · rw [if_pos ht, ← hdisp, ← ht, ← htype]
      by_cases hcont : strContainsSub p OPT_PATH_COMPONENT = true
      · rw [if_pos hcont, ← hpp, ← hpath]
      · rw [if_neg hcont]
    · rw [if_neg ht]
      by_cases hcont : strContainsSub p OPT_PATH_COMPONENT = true
      · rw [if_pos hcont, ← hpp, ← hpath]
      · rw [if_neg hcont]

theorem eraseDeps_mergeSpec {a s : CrateSpec} (h : eraseDeps a = eraseDeps s) :
    eraseDeps (mergeSpec a s) = eraseDeps a := by
  rw [mergeSpec_agree h]
  rfl

theorem mergeSpec_crate_id {a s : CrateSpec} (h : eraseDeps a = eraseDeps s) :
    (mergeSpec a s).crate_id = a.crate_id := by
  rw [mergeSpec_agree h]

theorem mergeSpec_comm {x y : CrateSpec} (h : eraseDeps x = eraseDeps y)
    (hsx : SortedStr x.deps) (hsy : SortedStr y.deps) :
    mergeSpec x y = mergeSpec y x := by
  rw [mergeSpec_agree h, mergeSpec_agree h.symm]
  rw [setUnion_comm x.deps y.deps hsx hsy]
  exact withDeps_congr h _

theorem goodMap_lookup {L : List CrateSpec} {m : List (String × CrateSpec)}
    (hm : GoodMap L m) {k : String} {v : CrateSpec} (hl : mapLookup k m = some v) :
    k = v.crate_id ∧ AgreeOn L v ∧ SortedStr v.deps :=
  hm (k, v) (mapLookup_mem hl)

theorem consolidateStep_good {L : List CrateSpec} {m : List (String × CrateSpec)}
    (hm : GoodMap L m) (hsorted : ∀ s ∈ L, SortedStr s.deps)
    {x : CrateSpec} (hx : x ∈ L) (hagx : AgreeOn L x) :
    GoodMap L (consolidateStep m x) := by
  intro kv hkv
  unfold consolidateStep at hkv
  cases hl : mapLookup x.crate_id m with
  | some existing =>
    rw [hl] at hkv
    rcases mem_mapInsert strlt hkv with he | he
    · obtain ⟨hkey, hag, hsort⟩ := goodMap_lookup hm hl
      have hax : eraseDeps existing = eraseDeps x := hag x hx hkey.symm
      subst he
      refine ⟨?_, ?_, ?_⟩
      · show x.crate_id = (mergeSpec existing x).crate_id
        rw [mergeSpec_crate_id hax]
        exact hkey
      · intro t ht hid2
        rw [mergeSpec_crate_id hax] at hid2
        show eraseDeps (mergeSpec existing x) = eraseDeps t
        rw [eraseDeps_mergeSpec hax]
        exact hag t ht hid2
      · show SortedStr (mergeSpec existing x).deps
        rw [mergeSpec_agree hax]
        exact sorted_setUnion x.deps hsort
    · exact hm _ he
  | none =>
    rw [hl] at hkv
    rcases mem_mapInsert strlt hkv with he | he
    · subst he
      exact ⟨rfl, hagx, hsorted x hx⟩
    · exact hm _ he

theorem consolidateStep_comm {L : List CrateSpec} {m : List (String × CrateSpec)}
    (hm : GoodMap L m)
    (hagree : ∀ s ∈ L, ∀ t ∈ L, s.crate_id = t.crate_id → eraseDeps s = eraseDeps t)
    (hsorted : ∀ s ∈ L, SortedStr s.deps)
    {x y : CrateSpec} (hx : x ∈ L) (hy : y ∈ L) :
    consolidateStep (consolidateStep m x) y = consolidateStep (consolidateStep m y) x := by
  by_cases hxy : x.crate_id = y.crate_id
  · cases hl : mapLookup x.crate_id m with
    | none =>
      have hly : mapLookup y.crate_id m = none := hxy ▸ hl
      have hagxy : eraseDeps x = eraseDeps y := hagree x hx y hy hxy
      have h1 : consolidateStep m x = mapInsert strlt x.crate_id x m := by
        unfold consolidateStep; rw [hl]
      have h2 : consolidateStep m y = mapInsert strlt y.crate_id y m := by
        unfold consolidateStep; rw [hly]
      have h3 : mapLookup y.crate_id (mapInsert strlt x.crate_id x m) = some x := by
        rw [hxy] at hl ⊢
        exact mapLookup_mapInsert_self strlt _ _ m
      have h4 : mapLookup x.crate_id (mapInsert strlt y.crate_id y m) = some y := by
        rw [hxy]
        exact mapLookup_mapInsert_self strlt _ _ m
      have h5 : consolidateStep (consolidateStep m x) y
          = mapInsert strlt y.crate_id (mergeSpec x y)
              (mapInsert strlt x.crate_id x m) := by
        rw [h1]; unfold consolidateStep; rw [h3]
      have h6 : consolidateStep (consolidateStep m y) x
          = mapInsert strlt x.crate_id (mergeSpec y x)
              (mapInsert strlt y.crate_id y m) := by
        rw [h2]; unfold consolidateStep; rw [h4]
      rw [h5, h6]
      rw [show y.crate_id = x.crate_id from hxy.symm]
      rw [mapInsert_mapInsert_self strlt_strictCmp, mapInsert_mapInsert_self strlt_strictCmp]
      rw [mergeSpec_comm hagxy (hsorted x hx) (hsorted y hy)]
    | some e =>
      have hly : mapLookup y.crate_id m = some e := hxy ▸ hl
      obtain ⟨hkey, hag, hsort⟩ := goodMap_lookup hm hl
      have hax : eraseDeps e = eraseDeps x := hag x hx hkey.symm
      have hay : eraseDeps e = eraseDeps y := hag y hy (hkey.symm.trans hxy)
      have h1 : consolidateStep m x = mapInsert strlt x.crate_id (mergeSpec e x) m := by
        unfold consolidateStep; rw [hl]
      have h2 : consolidateStep m y = mapInsert strlt y.crate_id (mergeSpec e y) m := by
        unfold consolidateStep; rw [hly]
      have h3 : mapLookup y.crate_id (mapInsert strlt x.crate_id (mergeSpec e x) m)
          = some (mergeSpec e x) := by
        rw [hxy] at *
        exact mapLookup_mapInsert_self strlt _ _ m
      have h4 : mapLookup x.crate_id (mapInsert strlt y.crate_id (mergeSpec e y) m)
          = some (mergeSpec e y) := by
        rw [hxy]
        exact mapLookup_mapInsert_self strlt _ _ m
      have h5 : consolidateStep (consolidateStep m x) y
          = mapInsert strlt y.crate_id (mergeSpec (mergeSpec e x) y)
              (mapInsert strlt x.crate_id (mergeSpec e x) m) := by
        rw [h1]; unfold consolidateStep; rw [h3]
      have h6 : consolidateStep (consolidateStep m y) x
          = mapInsert strlt x.crate_id (mergeSpec (mergeSpec e y) x)
              (mapInsert strlt y.crate_id (mergeSpec e y) m) := by
        rw [h2]; unfold consolidateStep; rw [h4]
      rw [h5, h6]
      rw [show y.crate_id = x.crate_id from hxy.symm]
      rw [mapInsert_mapInsert_self strlt_strictCmp, mapInsert_mapInsert_self strlt_strictCmp]
      have hgoal : mergeSpec (mergeSpec e x) y = mergeSpec (mergeSpec e y) x := by
        have hex : eraseDeps (mergeSpec e x) = eraseDeps e := eraseDeps_mergeSpec hax
        have hey : eraseDeps (mergeSpec e y) = eraseDeps e := eraseDeps_mergeSpec hay
        rw [mergeSpec_agree (hex.trans hay), mergeSpec_agree (hey.trans hax)]
        rw [mergeSpec_agree hax, mergeSpec_agree hay]
        have hrc := setUnion_right_comm e.deps x.deps y.deps hsort
        exact congrArg (fun d => ({ e with deps := d } : CrateSpec)) hrc
      rw [hgoal]
  · cases hlx : mapLookup x.crate_id m with
    | some ex =>
      have h1 : consolidateStep m x = mapInsert strlt x.crate_id (mergeSpec ex x) m := by
        unfold consolidateStep; rw [hlx]
      cases hly : mapLookup y.crate_id m with
      | some ey =>
        have h2 : consolidateStep m y = mapInsert strlt y.crate_id (mergeSpec ey y) m := by
          unfold consolidateStep; rw [hly]
        have h3 : consolidateStep (consolidateStep m x) y
            = mapInsert strlt y.crate_id (mergeSpec ey y)
                (mapInsert strlt x.crate_id (mergeSpec ex x) m) := by
          rw [h1]; unfold consolidateStep
          rw [mapLookup_mapInsert_ne strlt _ _ (Ne.symm hxy), hly]
        have h4 : consolidateStep (consolidateStep m y) x
            = mapInsert strlt x.crate_id (mergeSpec ex x)
                (mapInsert strlt y.crate_id (mergeSpec ey y) m) := by
          rw [h2]; unfold consolidateStep
          rw [mapLookup_mapInsert_ne strlt _ _ hxy, hlx]
        rw [h3, h4]
        exact mapInsert_comm strlt_strictCmp _ _ m (Ne.symm hxy)
      | none =>
        have h2 : consolidateStep m y = mapInsert strlt y.crate_id y m := by
          unfold consolidateStep; rw [hly]
        have h3 : consolidateStep (consolidateStep m x) y
            = mapInsert strlt y.crate_id y
                (mapInsert strlt x.crate_id (mergeSpec ex x) m) := by
          rw [h1]; unfold consolidateStep
          rw [mapLookup_mapInsert_ne strlt _ _ (Ne.symm hxy), hly]
        have h4 : consolidateStep (consolidateStep m y) x
            = mapInsert strlt x.crate_id (mergeSpec ex x)
                (mapInsert strlt y.crate_id y m) := by
          rw [h2]; unfold consolidateStep
          rw [mapLookup_mapInsert_ne strlt _ _ hxy, hlx]
        rw [h3, h4]
        exact mapInsert_comm strlt_strictCmp _ _ m (Ne.symm hxy)
    | none =>
      have h1 : consolidateStep m x = mapInsert strlt x.crate_id x m := by
        unfold consolidateStep; rw [hlx]
      cases hly : mapLookup y.crate_id m with
      | some ey =>
        have h2 : consolidateStep m y = mapInsert strlt y.crate_id (mergeSpec ey y) m := by
          unfold consolidateStep; rw [hly]
        have h3 : consolidateStep (consolidateStep m x) y
            = mapInsert strlt y.crate_id (mergeSpec ey y)
                (mapInsert strlt x.crate_id x m) := by
          rw [h1]; unfold consolidateStep
          rw [mapLookup_mapInsert_ne strlt _ _ (Ne.symm hxy), hly]
        have h4 : consolidateStep (consolidateStep m y) x
            = mapInsert strlt x.crate_id x
                (mapInsert strlt y.crate_id (mergeSpec ey y) m) := by
          rw [h2]; unfold consolidateStep
          rw [mapLookup_mapInsert_ne strlt _ _ hxy, hlx]
        rw [h3, h4]
        exact mapInsert_comm strlt_strictCmp _ _ m (Ne.symm hxy)
      | none =>
        have h2 : consolidateStep m y = mapInsert strlt y.crate_id y m := by
          unfold consolidateStep; rw [hly]
        have h3 : consolidateStep (consolidateStep m x) y
            = mapInsert strlt y.crate_id y (mapInsert strlt x.crate_id x m) := by
          rw [h1]; unfold consolidateStep
          rw [mapLookup_mapInsert_ne strlt _ _ (Ne.symm hxy), hly]
        have h4 : consolidateStep (consolidateStep m y) x
            = mapInsert strlt x.crate_id x (mapInsert strlt y.crate_id y m) := by
          rw [h2]; unfold consolidateStep
          rw [mapLookup_mapInsert_ne strlt _ _ hxy, hlx]
        rw [h3, h4]
        exact mapInsert_comm strlt_strictCmp _ _ m (Ne.symm hxy)

theorem foldl_consolidateStep_perm {L : List CrateSpec}
    (hagree : ∀ s ∈ L, ∀ t ∈ L, s.crate_id = t.crate_id → eraseDeps s = eraseDeps t)
    (hsorted : ∀ s ∈ L, SortedStr s.deps) :
    ∀ {l₁ l₂ : List CrateSpec}, l₁.Perm l₂ → (∀ z ∈ l₁, z ∈ L) →
    ∀ m, GoodMap L m → l₁.foldl consolidateStep m = l₂.foldl consolidateStep m := by
  intro l₁ l₂ hp
  induction hp with
  | nil => intro _ m _; rfl
  | cons z hp ih =>
    intro hsub m hm
    simp only [List.foldl_cons]
    have hz : z ∈ L := hsub z (List.mem_cons_self _ _)
    apply ih
    · intro w hw
      exact hsub w (List.mem_cons_of_mem _ hw)
    · exact consolidateStep_good hm hsorted hz (fun t ht hid => hagree z hz t ht hid)
  | swap a b l =>
    intro hsub m hm
    simp only [List.foldl_cons]
    have ha : a ∈ L := hsub a (by simp)
    have hb : b ∈ L := hsub b (by simp)
    rw [consolidateStep_comm hm hagree hsorted hb ha]
  | trans hp₁₂ hp₂₃ ih₁ ih₂ =>
    intro hsub m hm
    have hsub₂ : ∀ z ∈ _, z ∈ L := fun z hz => hsub z (hp₁₂.mem_iff.mpr hz)
    exact (ih₁ hsub m hm).trans (ih₂ hsub₂ m hm)

/-- Correctness of one dependency entry `e`, paired with the dependency
id `dep` of the depending spec `c`, relative to the placement table
`pos` (the final `merged_crates_index`) and the input specs: the entry's
crate index is strictly below the depending crate's position `i` and is
exactly the position at which the dependency id's crate was placed, and
the entry's name is the alias `c` declares for `dep` when there is one,
else the dependency crate's own display name — the display name of the
input spec whose `crate_id` is `dep`. -/
def DepEntryOk (specs : List CrateSpec) (pos : List (String × Nat)) (i : Nat)
    (c : CrateSpec) (dep : String) (e : Dependency) : Prop :=
  e.crate_index < i ∧
  mapLookup dep pos = some e.crate_index ∧
  (∀ a, mapLookup dep c.aliases = some a → e.name = a) ∧
  (mapLookup dep c.aliases = none →
    ∃ c' ∈ specs, c'.crate_id = dep ∧ e.name = c'.display_name)

/-- The crate at position `i` of the output was generated from an input
spec `c` that the placement table places at `i`, carries `c`'s display
name, and its dependency entries pair off with `c.deps` in order, each
satisfying `DepEntryOk`. -/
def CrateGood (specs : List CrateSpec) (pos : List (String × Nat))
    (crates : List Crate) (i : Nat) : Prop :=
  ∃ c ∈ specs,
    mapLookup c.crate_id pos = some i ∧
    (crates.getD i defaultCrate).display_name = some c.display_name ∧
    List.Forall₂ (DepEntryOk specs pos i c) c.deps (crates.getD i defaultCrate).deps

/-- Invariant tying `merged_crates_index` to the placed crates: every
binding `(k, j)` points strictly below the crate count, at a crate
generated from an input spec whose `crate_id` is `k`; and no two ids
share a position. -/
def IndexOk (specs : List CrateSpec) (m : List (String × Nat))
    (crates : List Crate) : Prop :=
  (∀ kv ∈ m, kv.2 < crates.length ∧
    ∃ c ∈ specs, c.crate_id = kv.1 ∧
      (crates.getD kv.2 defaultCrate).display_name = some c.display_name) ∧
  (∀ kv₁ ∈ m, ∀ kv₂ ∈ m, kv₁.2 = kv₂.2 → kv₁.1 = kv₂.1)

/-- Every already-placed crate satisfies `CrateGood` for the current
index map. -/
def CratesOk (specs : List CrateSpec) (m : List (String × Nat))
    (crates : List Crate) : Prop :=
  ∀ i, i < crates.length → CrateGood specs m crates i

theorem resolveDep_eq {merged : List (String × Nat)} {crates : List Crate}
    {c : CrateSpec} {dep : String} {j : Nat} (h : mapLookup dep merged = some j) :
    resolveDep merged crates c dep =
      { crate_index := j,
        name := match mapLookup dep c.aliases with
                | some a => a
                | none => ((crates.getD j defaultCrate).display_name).getD "" } := by
  unfold resolveDep
  rw [h]

theorem lookup_ne_of_fresh {κ ν : Type} [DecidableEq κ] {k knew : κ} {v : ν}
    {m : List (κ × ν)} (hl : mapLookup k m = some v)
    (hfresh : mapContains knew m = false) : k ≠ knew := by
  intro he
  subst he
  unfold mapContains at hfresh
  rw [hl] at hfresh
  exact Bool.noConfusion hfresh

theorem crateGood_stable {specs : List CrateSpec} {pos : List (String × Nat)}
    {crates : List Crate} {i : Nat} {knew : String} {v : Nat} (k : Crate)
    (hfresh : mapContains knew pos = false) (hi : i < crates.length)
    (h : CrateGood specs pos crates i) :
    CrateGood specs (mapInsert strlt knew v pos) (crates ++ [k]) i := by
  obtain ⟨c, hc, hlook, hdisp, hdeps⟩ := h
  refine ⟨c, hc, ?_, ?_, ?_⟩
  · rw [mapLookup_mapInsert_ne strlt _ _ (lookup_ne_of_fresh hlook hfresh)]
    exact hlook
  · rw [List.getD_append _ _ _ _ hi]
    exact hdisp
  · rw [List.getD_append _ _ _ _ hi]
    refine List.Forall₂.imp ?_ hdeps
    intro dep e he
    obtain ⟨hlt, hpos, hals, haln⟩ := he
    refine ⟨hlt, ?_, hals, haln⟩
    rw [mapLookup_mapInsert_ne strlt _ _ (lookup_ne_of_fresh hpos hfresh)]
    exact hpos

theorem indexOk_insert {specs : List CrateSpec} {m : List (String × Nat)}
    {cr : List Crate} {c : CrateSpec}
    (hidx : IndexOk specs m cr) (hc : c ∈ specs) :
    IndexOk specs (mapInsert strlt c.crate_id cr.length m)
      (cr ++ [mkCrate (mapInsert strlt c.crate_id cr.length m) cr c]) := by
  constructor
  · intro kv hkv
    rcases mem_mapInsert strlt hkv with he | he
    · subst he
      constructor
      · rw [List.length_append, List.length_singleton]
        omega
      · refine ⟨c, hc, rfl, ?_⟩
        rw [List.getD_append_right _ _ _ _ (le_refl _), Nat.sub_self]
        rfl
    · obtain ⟨hlt, c', hc', hcid, hdisp⟩ := hidx.1 kv he
      refine ⟨?_, c', hc', hcid, ?_⟩
      · rw [List.length_append, List.length_singleton]
        omega
      · rw [List.getD_append _ _ _ _ hlt]
        exact hdisp
  · intro kv₁ h₁ kv₂ h₂ hv
    rcases mem_mapInsert strlt h₁ with he₁ | he₁ <;>
      rcases mem_mapInsert strlt h₂ with he₂ | he₂
    · rw [he₁, he₂]
    · subst he₁
      have hv' : cr.length = kv₂.2 := hv
      have hlt := (hidx.1 kv₂ he₂).1
      exfalso
      omega
    · subst he₂
      have hv' : kv₁.2 = cr.length := hv
      have hlt := (hidx.1 kv₁ he₁).1
      exfalso
      omega
    · exact hidx.2 kv₁ he₁ kv₂ he₂ hv

theorem mkCrate_good {specs : List CrateSpec} {m : List (String × Nat)}
    {cr : List Crate} {c : CrateSpec}
    (hc : c ∈ specs)
    (hguard : (c.deps.any fun dep => !(mapContains dep m)) = false)
    (hidx : IndexOk specs m cr)
    (hnotself : ∀ dep ∈ c.deps, dep ≠ c.crate_id) :
    CrateGood specs (mapInsert strlt c.crate_id cr.length m)
      (cr ++ [mkCrate (mapInsert strlt c.crate_id cr.length m) cr c]) cr.length := by
  refine ⟨c, hc, ?_, ?_, ?_⟩
  · rw [mapLookup_mapInsert_self]
  · rw [List.getD_append_right _ _ _ _ (le_refl _), Nat.sub_self]
    rfl
  · rw [List.getD_append_right _ _ _ _ (le_refl _), Nat.sub_self]
    show List.Forall₂ _ c.deps
      (List.getD [mkCrate (mapInsert strlt c.crate_id cr.length m) cr c] 0 defaultCrate).deps
    rw [show (List.getD [mkCrate (mapInsert strlt c.crate_id cr.length m) cr c] 0
        defaultCrate).deps
        = c.deps.map (resolveDep (mapInsert strlt c.crate_id cr.length m) cr c) from rfl]
    rw [List.forall₂_map_right_iff, List.forall₂_same]
    intro dep hdep
    have hcont : mapContains dep m = true := by
      cases hcd : mapContains dep m
      · exfalso
        have hany : (c.deps.any fun dep => !(mapContains dep m)) = true :=
          List.any_eq_true.mpr ⟨dep, hdep, by simp [hcd]⟩
        rw [hguard] at hany
        exact Bool.noConfusion hany
      · rfl
    obtain ⟨j, hj⟩ : ∃ j, mapLookup dep m = some j := by
      unfold mapContains at hcont
      cases hl : mapLookup dep m with
      | none => rw [hl] at hcont; exact Bool.noConfusion hcont
      | some j => exact ⟨j, rfl⟩
    have hjlt : j < cr.length := (hidx.1 _ (mapLookup_mem hj)).1
    have hlookup2 : mapLookup dep (mapInsert strlt c.crate_id cr.length m) = some j := by
      rw [mapLookup_mapInsert_ne strlt _ _ (hnotself dep hdep)]
      exact hj
    rw [resolveDep_eq hlookup2]
    refine ⟨hjlt, hlookup2, ?_, ?_⟩
    · intro a ha
      show (match mapLookup dep c.aliases with
            | some a => a
            | none => ((cr.getD j defaultCrate).display_name).getD "") = a
      rw [ha]
    · intro hnone
      obtain ⟨-, c', hc', hcid, hdisp⟩ := hidx.1 _ (mapLookup_mem hj)
      refine ⟨c', hc', hcid, ?_⟩
      show (match mapLookup dep c.aliases with
            | some a => a
            | none => ((cr.getD j defaultCrate).display_name).getD "") = c'.display_name
      rw [hnone, hdisp]
      rfl

theorem runPass_C5 (specs : List CrateSpec) :
    ∀ (u s : List CrateSpec) (m : List (String × Nat)) (cr : List Crate),
    (∀ z ∈ s ++ u, z ∈ specs) →
    ((s ++ u).map CrateSpec.crate_id).Nodup →
    (∀ k, mapContains k m = true → k ∉ (s ++ u).map CrateSpec.crate_id) →
    IndexOk specs m cr → CratesOk specs m cr →
    (∀ z ∈ (runPass u s m cr).1, z ∈ specs) ∧
    ((runPass u s m cr).1.map CrateSpec.crate_id).Nodup ∧
    (∀ k, mapContains k (runPass u s m cr).2.1 = true →
        k ∉ (runPass u s m cr).1.map CrateSpec.crate_id) ∧
    IndexOk specs (runPass u s m cr).2.1 (runPass u s m cr).2.2 ∧
    CratesOk specs (runPass u s m cr).2.1 (runPass u s m cr).2.2 := by
  intro u
  induction u with
  | nil =>
    intro s m cr hsub hnd hdis hidx hcrok
    simp only [runPass]
    rw [List.append_nil] at hsub hnd hdis
    exact ⟨hsub, hnd, hdis, hidx, hcrok⟩
  | cons c rest ih =>
    intro s m cr hsub hnd hdis hidx hcrok
    simp only [runPass]
    by_cases hg : (c.deps.any fun dep => !(mapContains dep m)) = true
    · rw [if_pos hg]
      have hassoc : s ++ c :: rest = (s ++ [c]) ++ rest := by
        rw [List.append_assoc]
        rfl
      apply ih (s ++ [c]) m cr
      · rw [← hassoc]; exact hsub
      · rw [← hassoc]; exact hnd
      · rw [← hassoc]; exact hdis
      · exact hidx
      · exact hcrok
    · rw [if_neg hg]
      have hguard : (c.deps.any fun dep => !(mapContains dep m)) = false := by
        cases h : (c.deps.any fun dep => !(mapContains dep m))
        · rfl
        · exact absurd h hg
      have hcid : c.crate_id ∈ (s ++ c :: rest).map CrateSpec.crate_id :=
        List.mem_map.mpr ⟨c, by simp, rfl⟩
      have hfresh : mapContains c.crate_id m = false := by
        cases hcc : mapContains c.crate_id m
        · rfl
        · exact absurd hcid (hdis c.crate_id hcc)
      have hnotself : ∀ dep ∈ c.deps, dep ≠ c.crate_id := by
        intro dep hdep heq
        have hcont : mapContains dep m = true := by
          cases hcd : mapContains dep m
          · exact absurd (List.any_eq_true.mpr ⟨dep, hdep, by simp [hcd]⟩) hg
          · rfl
        exact hdis dep hcont (heq ▸ hcid)
      have hsubrest : ∀ z ∈ s ++ rest, z ∈ specs := by
        intro z hz
        rcases List.mem_append.mp hz with h | h
        · exact hsub z (List.mem_append.mpr (Or.inl h))
        · exact hsub z (List.mem_append.mpr (Or.inr (List.mem_cons_of_mem _ h)))
      have hsl : (s ++ rest).Sublist (s ++ c :: rest) :=
        (List.sublist_cons_self c rest).append_left s
      have hndrest : ((s ++ rest).map CrateSpec.crate_id).Nodup :=
        hnd.sublist (hsl.map CrateSpec.crate_id)
      have hcsub : c ∈ specs := hsub c (by simp)
      apply ih s (mapInsert strlt c.crate_id cr.length m)
        (cr ++ [mkCrate (mapInsert strlt c.crate_id cr.length m) cr c])
        hsubrest hndrest
      · intro k hk hkmem
        by_cases hkc : k = c.crate_id
        · subst hkc
          have hnd2 : (s.map CrateSpec.crate_id
              ++ c.crate_id :: rest.map CrateSpec.crate_id).Nodup := by
            simpa using hnd
          rw [List.nodup_append] at hnd2
          obtain ⟨hs2, hcr2, hdisj2⟩ := hnd2
          rcases List.mem_append.mp (show c.crate_id ∈ s.map CrateSpec.crate_id
              ++ rest.map CrateSpec.crate_id by simpa using hkmem) with h | h
          · exact hdisj2 h (List.mem_cons_self _ _)
          · exact (List.nodup_cons.mp hcr2).1 h
        · have hk2 : mapContains k m = true := by
            unfold mapContains at hk ⊢
            rwa [mapLookup_mapInsert_ne strlt _ _ hkc] at hk
          apply hdis k hk2
          rcases List.mem_map.mp hkmem with ⟨z, hz, hzid⟩
          rcases List.mem_append.mp hz with h | h
          · exact List.mem_map.mpr ⟨z, List.mem_append.mpr (Or.inl h), hzid⟩
          · exact List.mem_map.mpr
              ⟨z, List.mem_append.mpr (Or.inr (List.mem_cons_of_mem _ h)), hzid⟩
      · exact indexOk_insert hidx hcsub
      · intro i hi
        rw [List.length_append, List.length_singleton] at hi
        by_cases hil : i < cr.length
        · exact crateGood_stable _ hfresh hil (hcrok i hil)
        · have hieq : i = cr.length := by omega
          subst hieq
          exact mkCrate_good hcsub hguard hidx hnotself

theorem buildLoop_C5 (specs : List CrateSpec) :
    ∀ (fuel : Nat) (u : List CrateSpec) (m : List (String × Nat)) (cr : List Crate)
      (res : List Crate),
    (∀ z ∈ u, z ∈ specs) → (u.map CrateSpec.crate_id).Nodup →
    (∀ k, mapContains k m = true → k ∉ u.map CrateSpec.crate_id) →
    IndexOk specs m cr → CratesOk specs m cr →
    buildLoop fuel u m cr = Except.ok res →
    ∃ pos, (∀ k₁ k₂ j, mapLookup k₁ pos = some j → mapLookup k₂ pos = some j →
        k₁ = k₂) ∧
      ∀ i, i < res.length → CrateGood specs pos res i := by
  intro fuel
  induction fuel with
  | zero =>
    intro u m cr res hsub hnd hdis hidx hcrok heq
    cases u with
    | nil =>
      simp only [buildLoop] at heq
      injection heq with h
      refine ⟨m, ?_, h ▸ hcrok⟩
      intro k₁ k₂ j h₁ h₂
      exact hidx.2 (k₁, j) (mapLookup_mem h₁) (k₂, j) (mapLookup_mem h₂) rfl
    | cons c rest => exact Except.noConfusion heq
  | succ fuel ih =>
    intro u m cr res hsub hnd hdis hidx hcrok heq
    cases u with
    | nil =>
      simp only [buildLoop] at heq
      injection heq with h
      refine ⟨m, ?_, h ▸ hcrok⟩
      intro k₁ k₂ j h₁ h₂
      exact hidx.2 (k₁, j) (mapLookup_mem h₁) (k₂, j) (mapLookup_mem h₂) rfl
    | cons c rest =>
      simp only [buildLoop] at heq
      by_cases hlen : (runPass (c :: rest) [] m cr).1.length = (c :: rest).length
      · rw [if_pos hlen] at heq
        exact Except.noConfusion heq
      · rw [if_neg hlen] at heq
        have hmain := runPass_C5 specs (c :: rest) [] m cr
          (by simpa using hsub) (by simpa using hnd) (by simpa using hdis) hidx hcrok
        exact ih _ _ _ _ hmain.1 hmain.2.1 hmain.2.2.1 hmain.2.2.2.1 hmain.2.2.2.2 heq

theorem mapLookup_mapInsert_isSome {κ ν : Type} [DecidableEq κ] (klt : κ → κ → Bool)
    {k k' : κ} (v : ν) (m : List (κ × ν)) (h : (mapLookup k m).isSome = true) :
    (mapLookup k (mapInsert klt k' v m)).isSome = true := by
  by_cases hk : k = k'
  · subst hk
    rw [mapLookup_mapInsert_self]
    rfl
  · rwa [mapLookup_mapInsert_ne klt _ _ hk]

theorem collectOutputs_ok (fuel : Nat) (er : List String)
    (arts : List (Nat × Artifact)) (frs : List (Nat × PathFragment))
    (fs : List String → Bool) :
    ∀ (oids : List Nat) (entry : List (List String)),
    (∀ oid ∈ oids, ∃ a, mapLookup oid arts = some a ∧
        chainOk frs fuel a.path_fragment_id = true) →
    (∀ p ∈ entry, fs p = true) →
    ∃ l, collectOutputs fuel er arts frs fs entry oids = Except.ok l ∧
      ∀ p ∈ l, fs p = true := by
  intro oids
  induction oids with
  | nil =>
    intro entry _ hentry
    exact ⟨entry, rfl, hentry⟩
  | cons oid rest ih =>
    intro entry hids hentry
    obtain ⟨a, ha, hchain⟩ := hids oid (List.mem_cons_self _ _)
    obtain ⟨p, _, heval⟩ := path_from_fragments_total frs fuel a.path_fragment_id hchain
    have hrest : ∀ o ∈ rest, ∃ a, mapLookup o arts = some a ∧
        chainOk frs fuel a.path_fragment_id = true :=
      fun o ho => hids o (List.mem_cons_of_mem _ ho)
    simp only [collectOutputs, ha, heval fuel (le_refl fuel)]
    by_cases hfs : fs (er ++ p) = true
    · rw [if_pos hfs]
      apply ih (entry ++ [er ++ p]) hrest
      intro q hq
      rcases List.mem_append.mp hq with h | h
      · exact hentry q h
      · rw [List.mem_singleton] at h
        exact h ▸ hfs
    · rw [if_neg hfs]
      exact ih entry hrest hentry

theorem parseActions_ok (fuel : Nat) (er : List String)
    (arts : List (Nat × Artifact)) (frs : List (Nat × PathFragment))
    (tm : List (Nat × String)) (fs : List String → Bool) :
    ∀ (acts : List AqueryAction) (acc : List (String × List (List String))),
    (∀ act ∈ acts, ∃ t, mapLookup act.target_id tm = some t) →
    (∀ act ∈ acts, ∀ oid ∈ act.output_ids, ∃ a, mapLookup oid arts = some a ∧
        chainOk frs fuel a.path_fragment_id = true) →
    (∀ kv ∈ acc, ∀ p ∈ kv.2, fs p = true) →
    ∃ m, parseActions fuel er arts frs tm fs acts acc = Except.ok m ∧
      (∀ kv ∈ m, ∀ p ∈ kv.2, fs p = true) ∧
      (∀ act ∈ acts, ∀ t, mapLookup act.target_id tm = some t →
          (mapLookup t m).isSome = true) ∧
      (∀ k : String, (mapLookup k acc).isSome = true → (mapLookup k m).isSome = true) := by
  intro acts
  induction acts with
  | nil =>
    intro acc _ _ hacc
    refine ⟨acc, rfl, hacc, ?_, fun k h => h⟩
    intro act hact
    exact absurd hact (List.not_mem_nil act)
  | cons act rest ih =>
    intro acc hts has hacc
    obtain ⟨t, ht⟩ := hts act (List.mem_cons_self _ _)
    have hentry : ∀ p ∈ (mapLookup t acc).getD [], fs p = true := by
      cases hl : mapLookup t acc with
      | none => intro p hp; exact absurd hp (List.not_mem_nil p)
      | some l =>
        intro p hp
        exact hacc (t, l) (mapLookup_mem hl) p hp
    obtain ⟨l2, hl2, hl2fs⟩ := collectOutputs_ok fuel er arts frs fs act.output_ids
      ((mapLookup t acc).getD [])
      (has act (List.mem_cons_self _ _)) hentry
    have hacc' : ∀ kv ∈ mapInsert strlt t l2 acc, ∀ p ∈ kv.2, fs p = true := by
      intro kv hkv
      rcases mem_mapInsert strlt hkv with he | he
      · rw [he]
        exact hl2fs
      · exact hacc kv he
    obtain ⟨m, hm, hmfs, hmacts, hmkeys⟩ := ih (mapInsert strlt t l2 acc)
      (fun a ha => hts a (List.mem_cons_of_mem _ ha))
      (fun a ha => has a (List.mem_cons_of_mem _ ha)) hacc'
    refine ⟨m, ?_, hmfs, ?_, ?_⟩
    · simp only [parseActions, ht, hl2]
      exact hm
    · intro a ha t' ht'
      rcases List.mem_cons.mp ha with h | h
      · subst h
        rw [ht] at ht'
        injection ht' with ht''
        subst ht''
        apply hmkeys
        rw [mapLookup_mapInsert_self]
        rfl
      · exact hmacts a h t' ht'
    · intro k hk
      exact hmkeys k (mapLookup_mapInsert_isSome strlt _ _ hk)

theorem mergeSpec_path_replace {a s : CrateSpec} {p : String}
    (hp : s.proc_macro_dylib_path = some p)
    (hm : strContainsSub p OPT_PATH_COMPONENT = true) :
    (mergeSpec a s).proc_macro_dylib_path = some p := by
  simp only [mergeSpec, hp, hm]
  by_cases ht : s.crate_type = CrateType.Rlib
  · simp [ht]
  · simp [ht]

theorem mergeSpec_path_keep {a s : CrateSpec} {p : String}
    (hp : s.proc_macro_dylib_path = some p)
    (hm : strContainsSub p OPT_PATH_COMPONENT = false) :
    (mergeSpec a s).proc_macro_dylib_path = a.proc_macro_dylib_path := by
  simp only [mergeSpec, hp, hm]
  by_cases ht : s.crate_type = CrateType.Rlib
  · simp [ht]
  · simp [ht]

theorem mergeSpec_rlib_overwrites {a s : CrateSpec}
    (ht : s.crate_type = CrateType.Rlib) :
    (mergeSpec a s).display_name = s.display_name ∧
    (mergeSpec a s).crate_type = CrateType.Rlib := by
  simp only [mergeSpec, ht]
  cases hpp : s.proc_macro_dylib_path with
  | none => simp
  | some p =>
    by_cases hm : strContainsSub p OPT_PATH_COMPONENT = true
    · simp [hm]
    · simp [hm]

theorem mergeSpec_nonrlib_keeps {a s : CrateSpec}
    (ht : s.crate_type ≠ CrateType.Rlib) :
    (mergeSpec a s).display_name = a.display_name ∧
    (mergeSpec a s).crate_type = a.crate_type := by
  simp only [mergeSpec]
  rw [if_neg ht]
  cases hpp : s.proc_macro_dylib_path with
  | none => simp
  | some p =>
    by_cases hm : strContainsSub p OPT_PATH_COMPONENT = true
    · simp [hm]
    · simp [hm]

theorem consolidateMap_pair (s₁ s₂ : CrateSpec) (hid : s₂.crate_id = s₁.crate_id) :
    mapLookup s₁.crate_id (consolidateMap [s₁, s₂]) = some (mergeSpec s₁ s₂) := by
  unfold consolidateMap
  simp only [List.foldl_cons, List.foldl_nil]
  have h1 : consolidateStep [] s₁ = [(s₁.crate_id, s₁)] := by
    unfold consolidateStep
    rfl
  rw [h1]
  have h2 : mapLookup s₂.crate_id [(s₁.crate_id, s₁)] = some s₁ := by
    rw [hid]
    simp [mapLookup]
  have h3 : consolidateStep [(s₁.crate_id, s₁)] s₂
      = mapInsert strlt s₂.crate_id (mergeSpec s₁ s₂) [(s₁.crate_id, s₁)] := by
    unfold consolidateStep
    rw [h2]
  rw [h3, hid]
  rw [show ([(s₁.crate_id, s₁)] : List (String × CrateSpec))
      = mapInsert strlt s₁.crate_id s₁ [] from rfl]
  rw [mapInsert_mapInsert_self strlt_strictCmp]
  rw [mapLookup_mapInsert_self]

/-- A `Bin` spec sharing `specBase`'s crate id (note `specBase` is `Rlib`). -/
def specBinSame : CrateSpec :=
  { specBase with display_name := "base_bin", crate_type := CrateType.Bin }

/-- A proc-macro spec whose dylib path carries the opt-exec marker. -/
def specProcOpt : CrateSpec :=
  { specBase with
    crate_id := "ID-pm", display_name := "pm", crate_type := CrateType.ProcMacro,
    proc_macro_dylib_path := some "bazel-out/k8-opt-exec-AAA/bin/libpm.so" }

/-- The same proc-macro spec built in the fastbuild configuration. -/
def specProcFast : CrateSpec :=
  { specBase with
    crate_id := "ID-pm", display_name := "pm", crate_type := CrateType.ProcMacro,
    proc_macro_dylib_path := some "bazel-out/k8-fastbuild/bin/libpm.so" }

/-- The project `generate_rust_project` produces for the singleton input
`[specBase]` (used to instantiate the C5 theorem concretely). -/
def projBase : RustProject :=
  { sysroot := some "sr", sysroot_src := some "ss",
    crates := [mkCrate (mapInsert strlt specBase.crate_id 0 []) [] specBase],
    runnables := projectRunnables "w" }

/-- A one-action aquery payload over the fragment chain a/b/c. -/
def aqueryExample : AqueryOutput :=
  { artifacts := [{ id := 10, path_fragment_id := 3 }],
    actions := [{ output_ids := [10], target_id := 20 }],
    path_fragments := [{ id := 1, label := "a", parent_id := none },
                       { id := 2, label := "b", parent_id := some 1 },
                       { id := 3, label := "c", parent_id := some 2 }],
    targets := [{ id := 20, label := "//pkg:t" }] }

/-- All artifact ids among `oids` are present in the payload's artifact
map and their fragment parent chains are well-formed within `fuel`. -/
def outputsOk (out : AqueryOutput) (fuel : Nat) (oids : List Nat) : Bool :=
  oids.all (fun oid =>
    match mapLookup oid (aqueryArtifacts out) with
    | some a => chainOk (aqueryFragments out) fuel a.path_fragment_id
    | none => false)

/-- Claim C9's hypothesis, decidably: every referenced target, artifact
and fragment id of the payload is present (and the fragment chains are
well-formed, as they are in any forest-shaped table). -/
def aqueryIdsOk (out : AqueryOutput) : Bool :=
  out.actions.all (fun act =>
    (mapLookup act.target_id (aqueryTargets out)).isSome &&
    outputsOk out (out.path_fragments.length + 1) act.output_ids)

instance (l : List String) : Decidable (SortedStr l) := by
  unfold SortedStr
  exact inferInstance

/-- Claim C1, counterexample to the claim as stated: `specDangling`'s only
dependency id `"ID-missing"` is absent from the consolidated set, yet
`generate_rust_project` does not place the unit with the dependency
omitted — it fails with the no-progress error, so the dangling reference
does cause the build of the crate graph to fail. -/
theorem claim_C1_counterexample :
    "ID-missing" ∈ specDangling.deps ∧
    "ID-missing" ∉ [specDangling].map CrateSpec.crate_id ∧
    generate_rust_project "w" "sr" "ss" [specDangling]
      = Except.error "Failed to make progress on building crate dependency graph" :=
  ⟨by decide, by decide, by decide⟩

/-- Claim C1 (corrected): a unit whose dependency set contains an id
absent from the input set never becomes ready — the readiness check
treats the dangling id as a missing dependency forever, so no pass can
place the unit and `generate_rust_project` returns the no-progress error
instead of a project, for every input list containing such a unit. -/
theorem claim_C1_theorem (w sr ss : String) (l : List CrateSpec)
    (u : CrateSpec) (d : String) (hu : u ∈ l) (hd : d ∈ u.deps)
    (hmiss : d ∉ l.map CrateSpec.crate_id) :
    generate_rust_project w sr ss l
      = Except.error "Failed to make progress on building crate dependency graph" := by
  unfold generate_rust_project
  rw [buildLoop_stuck d u hd l.length l [] [] hu hmiss rfl]

/-- Claim C1 witness: the corrected theorem applied to the concrete
one-unit set with a dangling dependency. -/
theorem claim_C1_witness :
    "ID-missing" ∈ specDangling.deps ∧
    generate_rust_project "w" "sr" "ss" [specDangling]
      = Except.error "Failed to make progress on building crate dependency graph" :=
  ⟨by decide,
    claim_C1_theorem "w" "sr" "ss" [specDangling] specDangling "ID-missing"
      (by decide) (by decide) (by decide)⟩

/-- Claim C2, counterexample to the claim as stated: two specs sharing a
crate id whose cfg lists differ; the two orders of consolidation yield
consolidated sets that are not equal field-by-field (the merged cfg list
is `["cfga", "cfgb"]` in one order and `["cfgb", "cfga"]` in the other). -/
theorem claim_C2_counterexample :
    [specCfgA, specCfgB].Perm [specCfgB, specCfgA] ∧
    consolidate_crate_specs [specCfgA, specCfgB]
      ≠ consolidate_crate_specs [specCfgB, specCfgA] :=
  ⟨by decide, by decide⟩

/-- Claim C2 (corrected): consolidation is order-independent on inputs
where any two specs sharing a `crate_id` agree on every field except
their dependency sets (general inputs are order-dependent through the
cfg-append order and the display-name, crate-type, proc-macro-path and
first-encountered-scalar rules); dependency sets are `BTreeSet`s, i.e.
sorted lists.  Under that condition any permutation of the input yields
the identical consolidated map, hence the identical consolidated set. -/
theorem claim_C2_theorem (l₁ l₂ : List CrateSpec) (hp : l₁.Perm l₂)
    (hagree : ∀ s ∈ l₁, ∀ t ∈ l₁, s.crate_id = t.crate_id → eraseDeps s = eraseDeps t)
    (hsorted : ∀ s ∈ l₁, SortedStr s.deps) :
    consolidate_crate_specs l₁ = consolidate_crate_specs l₂ := by
  unfold consolidate_crate_specs consolidateMap
  rw [foldl_consolidateStep_perm hagree hsorted hp (fun z hz => hz) []
    (fun kv hkv => absurd hkv (List.not_mem_nil kv))]

/-- Claim C2 witness: the corrected theorem applied to two specs that
differ only in their dependency sets, in both orders. -/
theorem claim_C2_witness :
    consolidate_crate_specs
        [{ specBase with deps := ["ID-a"] }, { specBase with deps := ["ID-b"] }]
      = consolidate_crate_specs
        [{ specBase with deps := ["ID-b"] }, { specBase with deps := ["ID-a"] }] :=
  claim_C2_theorem _ _ (by decide) (by decide) (by decide)

/-- Claim C3, counterexample to the claim as stated: on the set
`{x: deps=[y], y: deps=[x], z: deps=[x]}` the build fails and `z` is a
remaining unit, but the cycle the DFS reports for `z` is the whole
traversal path `[z, x, y, x]` — not the slice `[x, y, x]` from the first
occurrence of the repeated id `"ID-x"` to its repetition that the claim
prescribes (that slice is `List.drop 1` of the report). -/
theorem claim_C3_counterexample :
    generate_rust_project "w" "sr" "ss" [specX, specY, specZ]
      = Except.error "Failed to make progress on building crate dependency graph" ∧
    detect_cycle 4 specZ cycleMapXYZ [] = some [specZ, specX, specY, specX] ∧
    List.drop 1 [specZ, specX, specY, specX] = [specX, specY, specX] ∧
    [specZ, specX, specY, specX] ≠ [specX, specY, specX] :=
  ⟨by decide, by decide, by decide, by decide⟩

/-- Claim C3 (corrected): for every input set containing distinct units
`x` and `y` depending on each other (one spec per id, as consolidation
guarantees), `generate_rust_project` fails with the no-progress error and
produces no project; and the cycle `detect_cycle` reports is the whole
traversal path from its start unit to the first repetition of a unit id,
inclusive — started at `x` on the two-unit map it reports `[x, y, x]`,
which contains both `x` and `y`. -/
theorem claim_C3_theorem :
    (∀ (w sr ss : String) (l : List CrateSpec) (x y : CrateSpec),
      x ∈ l → y ∈ l → x.crate_id ≠ y.crate_id →
      y.crate_id ∈ x.deps → x.crate_id ∈ y.deps →
      (l.map CrateSpec.crate_id).Nodup →
      generate_rust_project w sr ss l
        = Except.error "Failed to make progress on building crate dependency graph") ∧
    (detect_cycle 3 specX cycleMapXY [] = some [specX, specY, specX] ∧
      specX ∈ [specX, specY, specX] ∧ specY ∈ [specX, specY, specX]) := by
  constructor
  · intro w sr ss l x y hx hy hne hdx hdy hnd
    unfold generate_rust_project
    rw [buildLoop_cycle x y hne hdx hdy l.length l [] [] hx hy hnd rfl rfl]
  · exact ⟨by decide, by decide, by decide⟩

/-- Claim C3 witness: the corrected theorem's failure half applied to the
concrete two-unit cycle. -/
theorem claim_C3_witness :
    generate_rust_project "w" "sr" "ss" [specX, specY]
      = Except.error "Failed to make progress on building crate dependency graph" :=
  claim_C3_theorem.1 "w" "sr" "ss" [specX, specY] specX specY (by decide) (by decide)
    (by decide) (by decide) (by decide) (by decide)

/-- Claim C4, counterexample to the claim as stated: `specLibKind` has the
library kind `Lib` (it maps to `TargetKind.Lib`), `specBinKind` the binary
kind `Bin`, they share one crate id, yet merging with the binary spec
first keeps the binary's display name and crate type — only `Rlib`
triggers the overwrite, not every library kind. -/
theorem claim_C4_counterexample :
    crateTypeToTargetKind specLibKind.crate_type = TargetKind.Lib ∧
    specBinKind.crate_type = CrateType.Bin ∧
    specBinKind.crate_id = specLibKind.crate_id ∧
    (mapLookup "ID-l" (consolidateMap [specBinKind, specLibKind])).map
        (fun c => (c.display_name, c.crate_type))
      = some ("bin_name", CrateType.Bin) ∧
    ("bin_name", CrateType.Bin) ≠ (specLibKind.display_name, specLibKind.crate_type) :=
  ⟨by decide, by decide, by decide, by decide, by decide⟩

/-- Claim C4 (corrected): the display-name/crate-type precedence holds
when the library spec's kind is specifically `Rlib`: merging an `Rlib`
spec with a `Bin` spec sharing its crate id, in either order, yields a
canonical spec carrying the `Rlib` spec's display name and crate type. -/
theorem claim_C4_theorem (s₁ s₂ : CrateSpec) (hid : s₂.crate_id = s₁.crate_id)
    (h₁ : s₁.crate_type = CrateType.Rlib) (h₂ : s₂.crate_type = CrateType.Bin) :
    (∃ c, mapLookup s₁.crate_id (consolidateMap [s₁, s₂]) = some c ∧
        c.display_name = s₁.display_name ∧ c.crate_type = CrateType.Rlib) ∧
    (∃ c, mapLookup s₁.crate_id (consolidateMap [s₂, s₁]) = some c ∧
        c.display_name = s₁.display_name ∧ c.crate_type = CrateType.Rlib) := by
  have hnot2 : s₂.crate_type ≠ CrateType.Rlib := by
    rw [h₂]
    intro h
    exact CrateType.noConfusion h
  constructor
  · refine ⟨mergeSpec s₁ s₂, consolidateMap_pair s₁ s₂ hid, ?_, ?_⟩
    · rw [(mergeSpec_nonrlib_keeps hnot2).1]
    · rw [(mergeSpec_nonrlib_keeps hnot2).2]
      exact h₁
  · refine ⟨mergeSpec s₂ s₁, ?_, ?_, ?_⟩
    · rw [← hid]
      exact consolidateMap_pair s₂ s₁ hid.symm
    · exact (mergeSpec_rlib_overwrites h₁).1
    · exact (mergeSpec_rlib_overwrites h₁).2

/-- Claim C4 witness: the corrected theorem applied to the concrete
`Rlib`/`Bin` pair sharing one crate id. -/
theorem claim_C4_witness :
    ∃ c, mapLookup specBase.crate_id (consolidateMap [specBase, specBinSame]) = some c ∧
      c.display_name = specBase.display_name ∧ c.crate_type = CrateType.Rlib :=
  (claim_C4_theorem specBase specBinSame rfl rfl rfl).1

/-- Claim C5 (confirmed): whenever `generate_rust_project` succeeds on a
consolidated input (one spec per `crate_id`), there is a placement table
`pos` — the final `merged_crates_index` — assigning at most one id to
each position, under which every crate of the output satisfies
`CrateGood`: the crate at position `i` was generated from an input spec
placed at `i`, and each of its dependency entries has a crate index
strictly smaller than `i` that is exactly the position of the dependency
id's own crate, with the entry's name the alias the depending spec
declares for that dependency id if one exists, else the dependency
crate's own display name (the display name of the input spec whose
`crate_id` is that dependency id). -/
theorem claim_C5_theorem (w sr ss : String) (specs : List CrateSpec)
    (proj : RustProject) (hnd : (specs.map CrateSpec.crate_id).Nodup)
    (hok : generate_rust_project w sr ss specs = Except.ok proj) :
    ∃ pos, (∀ k₁ k₂ j, mapLookup k₁ pos = some j → mapLookup k₂ pos = some j →
        k₁ = k₂) ∧
      ∀ i, i < proj.crates.length → CrateGood specs pos proj.crates i := by
  unfold generate_rust_project at hok
  cases heq : buildLoop specs.length specs [] [] with
  | error e =>
    rw [heq] at hok
    exact Except.noConfusion hok
  | ok cs =>
    rw [heq] at hok
    injection hok with hok2
    have hcr : proj.crates = cs := by rw [← hok2]
    rw [hcr]
    exact buildLoop_C5 specs specs.length specs [] [] cs (fun z hz => hz) hnd
      (fun k hk => Bool.noConfusion hk)
      ⟨fun kv hkv => absurd hkv (List.not_mem_nil kv),
        fun kv₁ h₁ => absurd h₁ (List.not_mem_nil kv₁)⟩
      (fun i hi => absurd hi (Nat.not_lt_zero i)) heq

/-- Claim C5 witness: the theorem applied to the concrete singleton input
`[specBase]`, whose output project is `projBase`. -/
theorem claim_C5_witness :
    ∃ pos, (∀ k₁ k₂ j, mapLookup k₁ pos = some j → mapLookup k₂ pos = some j →
        k₁ = k₂) ∧
      ∀ i, i < projBase.crates.length → CrateGood [specBase] pos projBase.crates i :=
  claim_C5_theorem "w" "sr" "ss" [specBase] projBase (by decide) (by decide)

/-- Claim C6 (confirmed): merging two specs sharing one crate id where
exactly one proc-macro dylib path contains the opt-exec marker substring
yields, in either merge order, a canonical spec carrying the
marker-containing path. -/
theorem claim_C6_theorem (s₁ s₂ : CrateSpec) (hid : s₂.crate_id = s₁.crate_id)
    (p₁ p₂ : String)
    (hp₁ : s₁.proc_macro_dylib_path = some p₁)
    (hp₂ : s₂.proc_macro_dylib_path = some p₂)
    (hm₁ : strContainsSub p₁ OPT_PATH_COMPONENT = true)
    (hm₂ : strContainsSub p₂ OPT_PATH_COMPONENT = false) :
    (∃ c, mapLookup s₁.crate_id (consolidateMap [s₁, s₂]) = some c ∧
        c.proc_macro_dylib_path = some p₁) ∧
    (∃ c, mapLookup s₁.crate_id (consolidateMap [s₂, s₁]) = some c ∧
        c.proc_macro_dylib_path = some p₁) := by
  constructor
  · refine ⟨mergeSpec s₁ s₂, consolidateMap_pair s₁ s₂ hid, ?_⟩
    rw [mergeSpec_path_keep hp₂ hm₂]
    exact hp₁
  · refine ⟨mergeSpec s₂ s₁, ?_, ?_⟩
    · rw [← hid]
      exact consolidateMap_pair s₂ s₁ hid.symm
    · exact mergeSpec_path_replace hp₁ hm₁

/-- Claim C6 witness: the theorem applied to the concrete opt-exec and
fastbuild proc-macro pair. -/
theorem claim_C6_witness :
    ∃ c, mapLookup specProcOpt.crate_id (consolidateMap [specProcOpt, specProcFast])
        = some c ∧
      c.proc_macro_dylib_path = some "bazel-out/k8-opt-exec-AAA/bin/libpm.so" :=
  (claim_C6_theorem specProcOpt specProcFast rfl
    "bazel-out/k8-opt-exec-AAA/bin/libpm.so" "bazel-out/k8-fastbuild/bin/libpm.so"
    rfl rfl (by decide) (by decide)).1

/-- Claim C7 (confirmed): on a well-formed fragment table — the parent
walk from `id` stays inside the table and reaches a parentless root
within `n` lookups (`chainOk`) — `path_from_fragments` terminates with a
path: a single result is returned at every fuel of at least `n`, so the
unbounded Rust recursion is bounded by the chain depth. -/
theorem claim_C7_theorem (fragments : List (Nat × PathFragment)) (n id : Nat)
    (h : chainOk fragments n id = true) :
    ∃ p, ∀ fuel, n ≤ fuel → path_from_fragments fuel id fragments = Except.ok p := by
  obtain ⟨ls, _, heval⟩ := path_from_fragments_total fragments n id h
  exact ⟨ls, heval⟩

/-- Claim C7 witness: the theorem applied to the concrete three-node
chain. -/
theorem claim_C7_witness :
    chainOk fragChainABC 3 3 = true ∧
    (∃ p, ∀ fuel, 3 ≤ fuel → path_from_fragments fuel 3 fragChainABC = Except.ok p) :=
  ⟨by decide, claim_C7_theorem fragChainABC 3 3 (by decide)⟩

/-- Claim C8 (confirmed): on a well-formed fragment table the resolver
returns exactly the labels of the parent chain in root-to-leaf order
(`RootChain`); in particular the chain root "a" <- "b" <- "c" resolves to
the path a/b/c, as its witness evaluates. -/
theorem claim_C8_theorem (fragments : List (Nat × PathFragment)) (n id : Nat)
    (h : chainOk fragments n id = true) :
    ∃ ls, RootChain fragments id ls ∧
      ∀ fuel, n ≤ fuel → path_from_fragments fuel id fragments = Except.ok ls :=
  path_from_fragments_total fragments n id h

/-- Claim C8 witness: the theorem applied to the chain a/b/c, together
with the concrete evaluation to the path a/b/c. -/
theorem claim_C8_witness :
    (∃ ls, RootChain fragChainABC 3 ls ∧
      ∀ fuel, 3 ≤ fuel → path_from_fragments fuel 3 fragChainABC = Except.ok ls) ∧
    path_from_fragments 3 3 fragChainABC = Except.ok ["a", "b", "c"] :=
  ⟨claim_C8_theorem fragChainABC 3 3 (by decide), by decide⟩

/-- Claim C9 (confirmed): when every referenced target, artifact and
fragment id of the payload is present (`aqueryIdsOk`),
`parse_aquery_output_files` succeeds for every file system `fs`: a
non-existing resolved path is only skipped, every stored path passed the
existence check (so a target all of whose resolved outputs are
non-existing contributes an entry with no surviving files rather than an
error), and every action's target label has an entry in the result. -/
theorem claim_C9_theorem (er : List String) (out : AqueryOutput)
    (fs : List String → Bool) (hids : aqueryIdsOk out = true) :
    ∃ m, parse_aquery_output_files er out fs = Except.ok m ∧
      (∀ kv ∈ m, ∀ p ∈ kv.2, fs p = true) ∧
      (∀ act ∈ out.actions, ∀ t,
        mapLookup act.target_id (aqueryTargets out) = some t →
        (mapLookup t m).isSome = true) := by
  unfold aqueryIdsOk at hids
  rw [List.all_eq_true] at hids
  have hts : ∀ act ∈ out.actions,
      ∃ t, mapLookup act.target_id (aqueryTargets out) = some t := by
    intro act hact
    have h := hids act hact
    rw [Bool.and_eq_true] at h
    cases hl : mapLookup act.target_id (aqueryTargets out) with
    | none =>
      have h1 := h.1
      rw [hl] at h1
      exact Bool.noConfusion h1
    | some t => exact ⟨t, rfl⟩
  have has : ∀ act ∈ out.actions, ∀ oid ∈ act.output_ids,
      ∃ a, mapLookup oid (aqueryArtifacts out) = some a ∧
        chainOk (aqueryFragments out) (out.path_fragments.length + 1)
          a.path_fragment_id = true := by
    intro act hact oid hoid
    have h := hids act hact
    rw [Bool.and_eq_true] at h
    have h2 := h.2
    unfold outputsOk at h2
    rw [List.all_eq_true] at h2
    have h3 := h2 oid hoid
    cases hl : mapLookup oid (aqueryArtifacts out) with
    | none =>
      rw [hl] at h3
      exact Bool.noConfusion h3
    | some a =>
      rw [hl] at h3
      exact ⟨a, rfl, h3⟩
  obtain ⟨m, hm, hfs2, hacts, _⟩ := parseActions_ok (out.path_fragments.length + 1) er
    (aqueryArtifacts out) (aqueryFragments out) (aqueryTargets out) fs out.actions []
    hts has (fun kv hkv => absurd hkv (List.not_mem_nil kv))
  exact ⟨m, hm, hfs2, hacts⟩

/-- Claim C9 witness: the theorem applied to the concrete one-action
payload with the file system that rejects every path — parsing still
succeeds and the target label keeps an entry, whose surviving file list
the second conjunct forces empty. -/
theorem claim_C9_witness :
    aqueryIdsOk aqueryExample = true ∧
    (∃ m, parse_aquery_output_files ["er"] aqueryExample (fun _ => false)
        = Except.ok m ∧
      (∀ kv ∈ m, ∀ p ∈ kv.2, (fun _ => false) p = true) ∧
      (∀ act ∈ aqueryExample.actions, ∀ t,
        mapLookup act.target_id (aqueryTargets aqueryExample) = some t →
        (mapLookup t m).isSome = true)) :=
  ⟨by decide, claim_C9_theorem ["er"] aqueryExample (fun _ => false) (by decide)⟩

/-- Claim C10 (confirmed): `consolidate_crate_specs` returns `Ok` for
every input vector of crate specs; despite its `Result` return type the
error branch is never taken, so consolidation itself can never be the
failing stage of the pipeline. -/
theorem claim_C10_theorem (crate_specs : List CrateSpec) :
    ∃ m, consolidate_crate_specs crate_specs = Except.ok m :=
  ⟨consolidateMap crate_specs, rfl⟩
